import Mathlib

/-!
Shallow embedding of the protoc-gen-interceptors rewrite engine
(`src/main.go`).  The engine parses an already generated grpc-gateway
file, walks its Go syntax tree once in post-order (`astutil.Apply` with a
post callback), patches root registration functions, deletes stale
wrapper functions, rewrites matched call-site assignments, and appends
one synthesized wrapper function per captured call site.

The Go AST subset needed by the program is embedded as a mutual
inductive family with bespoke list types (`ExprList`, `StmtList`, ...)
so that all recursions are structural and every definition evaluates
inside the kernel.  `ast.Object` back-pointers (`genIdentWithObj`),
source positions and comments (`getEmptyLine`) are printing metadata
with no structural content and are not modelled; `nil` slices and empty
slices are identified.  Go strings are Lean `String`s, Go maps with
string keys are insertion-ordered association lists (only membership,
lookup, update and iteration are used by the program; iteration order
of a Go map is unspecified, the association list fixes one order).
-/

namespace ProtocGenInterceptors

/-- Kind of an `ast.BasicLit` (`token.STRING` versus every other kind;
the program only ever generates string literals and never inspects the
kind when reading one). -/
inductive LitKind where
  | str
  | other
  deriving DecidableEq

/-- Assignment token: `:=` (`token.DEFINE`) or `=` (`token.ASSIGN`). -/
inductive AssignTok where
  | define
  | assign
  deriving DecidableEq

/-- Unary operators used by the program: `!` (`token.NOT`) and the
address-of `&` (`token.AND`). -/
inductive UnOp where
  | notOp
  | ampOp
  deriving DecidableEq

/-- Binary operators used by the program: `==` and `!=`. -/
inductive BinOp where
  | eql
  | neq
  deriving DecidableEq

/-- The `ast.GenDecl` token: `type`, `var`, `const` or `import`. -/
inductive DeclTok where
  | typeTok
  | varTok
  | constTok
  | importTok
  deriving DecidableEq

mutual

/-- Go expressions (the subset the program reads or builds).  An
`ast.FuncType` appears only inside `funcLit`, flattened to its
parameter and result field lists exactly as the program accesses it. -/
inductive Expr where
  | ident (name : String)
  | selector (x : Expr) (sel : String)
  | call (fn : Expr) (args : ExprList)
  | basicLit (kind : LitKind) (value : String)
  | star (x : Expr)
  | paren (x : Expr)
  | unary (op : UnOp) (x : Expr)
  | binary (op : BinOp) (x : Expr) (y : Expr)
  | composite (ty : Expr) (elts : ExprList)
  | keyVal (key : Expr) (value : Expr)
  | typeAssert (x : Expr) (ty : Expr)
  | funcLit (params : FieldList) (results : FieldList) (body : StmtList)
  | mapType (key : Expr) (value : Expr)
  | interfaceType
  | structType (fields : FieldList)
  deriving DecidableEq

inductive ExprList where
  | nil
  | cons (head : Expr) (tail : ExprList)
  deriving DecidableEq

/-- An optional expression (e.g. the type of an `ast.ValueSpec`). -/
inductive OptExpr where
  | none
  | some (e : Expr)
  deriving DecidableEq

/-- An `ast.Field`: a list of names and one type expression. -/
inductive Field where
  | mk (names : List String) (ty : Expr)
  deriving DecidableEq

inductive FieldList where
  | nil
  | cons (head : Field) (tail : FieldList)
  deriving DecidableEq

/-- Go statements (the subset the program reads or builds). -/
inductive Stmt where
  | assign (lhs : ExprList) (tok : AssignTok) (rhs : ExprList)
  | ret (results : ExprList)
  | ifStmt (ini : OptStmt) (cond : Expr) (body : StmtList) (els : OptStmt)
  | declStmt (tok : DeclTok) (specs : SpecList)
  | block (body : StmtList)
  | exprStmt (e : Expr)
  deriving DecidableEq

inductive OptStmt where
  | none
  | some (s : Stmt)
  deriving DecidableEq

inductive StmtList where
  | nil
  | cons (head : Stmt) (tail : StmtList)
  deriving DecidableEq

/-- An `ast.Spec` inside a `GenDecl`. -/
inductive Spec where
  | valueSpec (names : List String) (ty : OptExpr) (values : ExprList)
  | typeSpec (name : String) (ty : Expr)
  | importSpec (path : String)
  deriving DecidableEq

inductive SpecList where
  | nil
  | cons (head : Spec) (tail : SpecList)
  deriving DecidableEq

end

/-- Top-level declarations of a file.  In Go an `ast.FuncDecl` occurs
only at the top level; its `FuncType` is flattened into parameter and
result lists. -/
inductive Decl where
  | funcDecl (name : String) (params : FieldList) (results : FieldList) (body : StmtList)
  | genDecl (tok : DeclTok) (specs : SpecList)
  deriving DecidableEq

/-- An `ast.File`: the package clause carries no structure the program
uses, so a file is its declaration list. -/
structure File where
  decls : List Decl
  deriving DecidableEq

/-- Conversion helpers so the builders can be written with ordinary
list literals (`exprToList` / `stmtToList` / `fieldsToList` /
`identToList` in the source are exactly such variadic-to-slice
helpers). -/
def exprToList : List Expr → ExprList
  | [] => .nil
  | e :: es => .cons e (exprToList es)

def stmtToList : List Stmt → StmtList
  | [] => .nil
  | s :: ss => .cons s (stmtToList ss)

def fieldsToList : List Field → FieldList
  | [] => .nil
  | f :: fs => .cons f (fieldsToList fs)

def specsToList : List Spec → SpecList
  | [] => .nil
  | s :: ss => .cons s (specsToList ss)

def FieldList.append : FieldList → FieldList → FieldList
  | .nil, l => l
  | .cons h t, l => .cons h (t.append l)

/-! ## Naming constants and templates (`const` block of `main.go`). -/

def protoExtension : String := ".proto"

def interceptorVar : String := "interceptor"

def handlerResponseItemVar : String := "handlerResponseItem"

def handlerVar : String := "handler"

def mdVar : String := "md"

def respVar : String := "resp"

def dataVar : String := "data"

def okVar : String := "ok"

def reqVar : String := "req"

def errVar : String := "err"

def ctxVar : String := "ctx"

def annotatedContextVar : String := "annotatedContext"

def inboundMarshalerVar : String := "inboundMarshaler"

def nilVar : String := "nil"

def serverVar : String := "server"

def pathParamsVar : String := "pathParams"

def handlerResponseType : String := "handlerResponse"

def errType : String := "error"

def stringType : String := "string"

def runtimePackage : String := "runtime"

def grpcPackage : String := "grpc"

def protoPackage : String := "proto"

def httpPackage : String := "http"

def contextPackage : String := "context"

def fmtPackage : String := "fmt"

def serverStructField : String := "Server"

def fullMethodStructField : String := "FullMethod"

def annotateIncomingContextSelector : String := "AnnotateIncomingContext"

def unaryServerInterceptorSelector : String := "UnaryServerInterceptor"

def serverMetadataSelector : String := "ServerMetadata"

def messageSelector : String := "Message"

def contextSelector : String := "Context"

def requestSelector : String := "Request"

def unaryServerInfoSelector : String := "UnaryServerInfo"

def marshalerSelector : String := "Marshaler"

def errorfSelector : String := "Errorf"

/-- `rootFunctionTemplate = "Register%sHandlerServer"`. -/
def rootFunctionName (service : String) : String :=
  "Register" ++ service ++ "HandlerServer"

/-- `methodFunctionTemplate = "local_request_%s_%s_0"`. -/
def methodFunctionName (service method : String) : String :=
  "local_request_" ++ service ++ "_" ++ method ++ "_0"

/-- `generatedFunctionTemplate = "%s_%s"`, always instantiated with
`interceptorVar` as the first part. -/
def generatedFunctionName (callName : String) : String :=
  interceptorVar ++ "_" ++ callName

/-! ## Tree builders (`gen*` / `get*` helpers of `main.go`). -/

/-- `genIdent` (and `genIdentWithObj`, whose `ast.Object` is printing
metadata and not modelled). -/
def genIdent (n : String) : Expr := .ident n

def getSelectorExpr (x sel : String) : Expr := .selector (genIdent x) sel

def getStarExpr (e : Expr) : Expr := .star e

def getParenExpr (e : Expr) : Expr := .paren e

def getBasicLit (kind : LitKind) (value : String) : Expr := .basicLit kind value

def getKeyValExpr (key val : Expr) : Expr := .keyVal key val

def getCallExpr (fn : Expr) (args : List Expr) : Expr := .call fn (exprToList args)

def getCompositeLit (ty : Expr) (elts : List Expr) : Expr := .composite ty (exprToList elts)

def getUnaryExpr (op : UnOp) (e : Expr) : Expr := .unary op e

def getBinaryExpr (op : BinOp) (x y : String) : Expr := .binary op (genIdent x) (genIdent y)

def getTypeAssertExpr (x ty : Expr) : Expr := .typeAssert x ty

def getReturnStmt (results : List Expr) : Stmt := .ret (exprToList results)

def getBlockStmnt (body : List Stmt) : Stmt := .block (stmtToList body)

/-- `getIfStmt`: an empty `elseItem` slice yields no else branch. -/
def getIfStmt (cond : Expr) (ini : OptStmt) (elseItem : List Stmt) (body : List Stmt) : Stmt :=
  .ifStmt ini cond (stmtToList body)
    (match elseItem with
     | [] => .none
     | _ => .some (getBlockStmnt elseItem))

def getDeclStmt (tok : DeclTok) (specs : List Spec) : Stmt :=
  .declStmt tok (specsToList specs)

def getStructType (fields : List Field) : Expr := .structType (fieldsToList fields)

def getEmptyInterface (name : String) : Field := ⟨[name], .interfaceType⟩

/-- `generateField(pointer, packageName, selectorName, names...)`. -/
def generateField (pointer : Bool) (packageName selectorName : String) (names : List String) : Field :=
  let ft : Expr :=
    if packageName = "" then .ident selectorName
    else getSelectorExpr packageName selectorName
  ⟨names, if pointer then getStarExpr ft else ft⟩

/-- `getInterceptorField`: `interceptor *grpc.UnaryServerInterceptor`. -/
def getInterceptorField : Field :=
  ⟨[interceptorVar], getStarExpr (getSelectorExpr grpcPackage unaryServerInterceptorSelector)⟩

/-- `generateAssignmentStatement`: the replacement call-site assignment
`md, resp, err := <funcName>(ctx, annotatedContext, inboundMarshaler,
server, interceptor, req, pathParams)`. -/
def generateAssignmentStatement (funcName : String) : Stmt :=
  .assign
    (exprToList [genIdent mdVar, genIdent respVar, genIdent errVar])
    .define
    (exprToList [getCallExpr (genIdent funcName)
      [genIdent ctxVar, genIdent annotatedContextVar, genIdent inboundMarshalerVar,
       genIdent serverVar, genIdent interceptorVar, genIdent reqVar, genIdent pathParamsVar]])

/-- A call site captured for wrapper synthesis
(`assignmentWithRPCMethodName`). -/
structure Captured where
  rpcMethodName : String
  assignStmt : Stmt
  funcName : String
  deriving DecidableEq

/-- `generateStructDeclaration`: the local `handlerResponse` record. -/
def generateStructDeclaration : Stmt :=
  getDeclStmt .typeTok
    [.typeSpec handlerResponseType
      (getStructType
        [generateField false runtimePackage serverMetadataSelector [mdVar],
         generateField false protoPackage messageSelector [respVar]])]

/-- `generateInterfaceDeclaration`: `var handlerResponseItem interface{}`. -/
def generateInterfaceDeclaration : Stmt :=
  getDeclStmt .varTok
    [.valueSpec [handlerResponseItemVar] (.some .interfaceType) (exprToList [])]

/-- `generateHandlerAssignment`: the `handler := func(...) ...` closure
that splices the captured original assignment. -/
def generateHandlerAssignment (funcData : Captured) : Stmt :=
  .assign (exprToList [genIdent handlerVar]) .define
    (exprToList [
      .funcLit
        (fieldsToList
          [generateField false contextPackage contextSelector [ctxVar],
           getEmptyInterface reqVar])
        (fieldsToList
          [getEmptyInterface "",
           generateField false "" errType []])
        (stmtToList [
          getIfStmt (genIdent okVar)
            (.some (.assign (exprToList [genIdent reqVar, genIdent okVar]) .define
              (exprToList [getTypeAssertExpr (genIdent reqVar)
                (getStarExpr (getSelectorExpr httpPackage requestSelector))])))
            []
            [funcData.assignStmt,
             getReturnStmt
               [getCompositeLit (genIdent handlerResponseType)
                  [getKeyValExpr (genIdent respVar) (genIdent respVar),
                   getKeyValExpr (genIdent mdVar) (genIdent mdVar)],
                genIdent errVar]],
          getReturnStmt
            [genIdent nilVar,
             getCallExpr (getSelectorExpr fmtPackage errorfSelector)
               [getBasicLit .str "\"error converting req to *http.Request\""]]])])

/-- `generateIfInterceptorIsZeroStmt`: calls `handler` directly when
`interceptor == nil`, otherwise calls the dereferenced interceptor with
the `grpc.UnaryServerInfo` record. -/
def generateIfInterceptorIsZeroStmt (funcData : Captured) : Stmt :=
  getIfStmt (getBinaryExpr .eql interceptorVar nilVar) .none
    [.assign (exprToList [genIdent handlerResponseItemVar, genIdent errVar]) .assign
      (exprToList [getCallExpr (getParenExpr (getStarExpr (genIdent interceptorVar)))
        [genIdent ctxVar, genIdent reqVar,
         getUnaryExpr .ampOp (getCompositeLit
           (getSelectorExpr grpcPackage unaryServerInfoSelector)
           [getKeyValExpr (genIdent serverStructField) (genIdent serverVar),
            getKeyValExpr (genIdent fullMethodStructField)
              (getBasicLit .str funcData.rpcMethodName)]),
         genIdent handlerVar]])]
    [.assign (exprToList [genIdent handlerResponseItemVar, genIdent errVar]) .assign
      (exprToList [getCallExpr (genIdent handlerVar) [genIdent ctxVar, genIdent reqVar]])]

/-- `getFunctionDeclarationBody`. -/
def getFunctionDeclarationBody (funcData : Captured) : StmtList :=
  stmtToList [
    generateStructDeclaration,
    generateHandlerAssignment funcData,
    generateInterfaceDeclaration,
    generateIfInterceptorIsZeroStmt funcData,
    getIfStmt (getBinaryExpr .neq errVar nilVar) .none [] [getReturnStmt []],
    .assign (exprToList [genIdent dataVar, genIdent okVar]) .define
      (exprToList [getTypeAssertExpr (genIdent handlerResponseItemVar)
        (genIdent handlerResponseType)]),
    getIfStmt (getUnaryExpr .notOp (genIdent okVar)) .none [] [getReturnStmt []],
    getReturnStmt [getSelectorExpr dataVar mdVar, getSelectorExpr dataVar respVar,
      genIdent nilVar]]

/-- Parameter list of `generateFunctionDeclarationType`. -/
def generateFunctionDeclarationParams (serverType : String) : FieldList :=
  fieldsToList
    [generateField false contextPackage contextSelector [ctxVar, annotatedContextVar],
     generateField false runtimePackage marshalerSelector [inboundMarshalerVar],
     generateField false "" serverType [serverVar],
     generateField true grpcPackage unaryServerInterceptorSelector [interceptorVar],
     generateField true httpPackage requestSelector [reqVar],
     ⟨[pathParamsVar], .mapType (genIdent stringType) (genIdent stringType)⟩]

/-- Result list of `generateFunctionDeclarationType`. -/
def generateFunctionDeclarationResults : FieldList :=
  fieldsToList
    [generateField false runtimePackage serverMetadataSelector [mdVar],
     generateField false protoPackage messageSelector [respVar],
     generateField false "" errType [errVar]]

/-- `generateFunctionDeclaration`: the whole synthesized wrapper. -/
def generateFunctionDeclaration (funcData : Captured) (serverType : String) : Decl :=
  .funcDecl funcData.funcName
    (generateFunctionDeclarationParams serverType)
    generateFunctionDeclarationResults
    (getFunctionDeclarationBody funcData)

/-! ## Walk state (`processSingleProto` locals) and the traversal. -/

/-- The mutable locals of `processSingleProto` threaded through the
`astutil.Apply` post-order callback: `lastRPCMethodName`, `serverType`
and the `functions` map (insertion-ordered association list). -/
structure WalkState where
  lastRPC : String
  serverType : String
  functions : List (String × Captured)
  deriving DecidableEq

def initState : WalkState := ⟨"", "", []⟩

/-- Go map insert/overwrite: replace the value at an existing key in
place, otherwise append the binding. -/
def mapUpdate {α : Type} (m : List (String × α)) (k : String) (v : α) : List (String × α) :=
  match m with
  | [] => [(k, v)]
  | (k2, v2) :: rest => if k2 = k then (k2, v) :: rest else (k2, v2) :: mapUpdate rest k v

/-- Go map lookup (`m[k]` with its comma-ok form). -/
def mapLookup {α : Type} (m : List (String × α)) (k : String) : Option α :=
  match m with
  | [] => Option.none
  | (k2, v) :: rest => if k2 = k then Option.some v else mapLookup rest k

/-- The argument loop of `tryToExtractRPCMethodName`: every
`*ast.BasicLit` argument overwrites the method name, so the last
literal wins; non-literal arguments are skipped. -/
def extractLastLit (acc : String) : ExprList → String
  | .nil => acc
  | .cons (.basicLit _ v) rest => extractLastLit v rest
  | .cons _ rest => extractLastLit acc rest

/-- `tryToExtractRPCMethodName`: update `lastRPCMethodName` when the
call target is `runtime.AnnotateIncomingContext`. -/
def tryToExtractRPCMethodName (lastRPC : String) (x : Expr) (sel : String) (args : ExprList) : String :=
  match x with
  | .ident n =>
    if n = runtimePackage ∧ sel = annotateIncomingContextSelector then extractLastLit lastRPC args
    else lastRPC
  | _ => lastRPC

/-- The `*ast.AssignStmt` arm of the `astutil.Apply` callback
(`main.go` lines 201-223), acting on the node after its children have
been processed: a single right-hand call through a selector feeds the
RPC-method-name extractor; a single right-hand call of a plain
identifier that is an expected call-site name (or whose derived wrapper
name was already captured) is replaced and captured. -/
def visitAssign (mt : List String) (s : WalkState) (st : Stmt) : WalkState × Stmt :=
  match st with
  | .assign _ _ (.cons (.call fn args) .nil) =>
    match fn with
    | .selector x sel =>
      ({ s with lastRPC := tryToExtractRPCMethodName s.lastRPC x sel args }, st)
    | .ident f =>
      let newName := generatedFunctionName f
      if mt.contains f || (mapLookup s.functions newName).isSome then
        ({ s with functions := mapUpdate s.functions newName ⟨s.lastRPC, st, newName⟩ },
         generateAssignmentStatement newName)
      else (s, st)
    | _ => (s, st)
  | _ => (s, st)

mutual

/-- Post-order traversal of an expression (children in `ast.Inspect`
field order); the callback acts only on statements and declarations, so
expressions are rebuilt unchanged apart from rewrites inside nested
function-literal bodies. -/
def walkExpr (mt : List String) (s : WalkState) : Expr → WalkState × Expr
  | .ident n => (s, .ident n)
  | .selector x sel =>
    let p := walkExpr mt s x
    (p.1, .selector p.2 sel)
  | .call fn args =>
    let p := walkExpr mt s fn
    let q := walkExprList mt p.1 args
    (q.1, .call p.2 q.2)
  | .basicLit k v => (s, .basicLit k v)
  | .star x =>
    let p := walkExpr mt s x
    (p.1, .star p.2)
  | .paren x =>
    let p := walkExpr mt s x
    (p.1, .paren p.2)
  | .unary op x =>
    let p := walkExpr mt s x
    (p.1, .unary op p.2)
  | .binary op x y =>
    let p := walkExpr mt s x
    let q := walkExpr mt p.1 y
    (q.1, .binary op p.2 q.2)
  | .composite ty elts =>
    let p := walkExpr mt s ty
    let q := walkExprList mt p.1 elts
    (q.1, .composite p.2 q.2)
  | .keyVal k v =>
    let p := walkExpr mt s k
    let q := walkExpr mt p.1 v
    (q.1, .keyVal p.2 q.2)
  | .typeAssert x ty =>
    let p := walkExpr mt s x
    let q := walkExpr mt p.1 ty
    (q.1, .typeAssert p.2 q.2)
  | .funcLit ps rs b =>
    let p := walkFieldList mt s ps
    let q := walkFieldList mt p.1 rs
    let r := walkStmtList mt q.1 b
    (r.1, .funcLit p.2 q.2 r.2)
  | .mapType k v =>
    let p := walkExpr mt s k
    let q := walkExpr mt p.1 v
    (q.1, .mapType p.2 q.2)
  | .interfaceType => (s, .interfaceType)
  | .structType fs =>
    let p := walkFieldList mt s fs
    (p.1, .structType p.2)

def walkExprList (mt : List String) (s : WalkState) : ExprList → WalkState × ExprList
  | .nil => (s, .nil)
  | .cons h t =>
    let p := walkExpr mt s h
    let q := walkExprList mt p.1 t
    (q.1, .cons p.2 q.2)

def walkOptExpr (mt : List String) (s : WalkState) : OptExpr → WalkState × OptExpr
  | .none => (s, .none)
  | .some e =>
    let p := walkExpr mt s e
    (p.1, .some p.2)

def walkField (mt : List String) (s : WalkState) : Field → WalkState × Field
  | .mk names ty =>
    let p := walkExpr mt s ty
    (p.1, .mk names p.2)

def walkFieldList (mt : List String) (s : WalkState) : FieldList → WalkState × FieldList
  | .nil => (s, .nil)
  | .cons h t =>
    let p := walkField mt s h
    let q := walkFieldList mt p.1 t
    (q.1, .cons p.2 q.2)

/-- Post-order traversal of a statement; the `assign` case runs the
`visitAssign` callback on the node after its children were processed,
exactly as `astutil.Apply`'s post function sees it. -/
def walkStmt (mt : List String) (s : WalkState) : Stmt → WalkState × Stmt
  | .assign lhs tok rhs =>
    let p := walkExprList mt s lhs
    let q := walkExprList mt p.1 rhs
    visitAssign mt q.1 (.assign p.2 tok q.2)
  | .ret rs =>
    let p := walkExprList mt s rs
    (p.1, .ret p.2)
  | .ifStmt ini cond body els =>
    let p := walkOptStmt mt s ini
    let q := walkExpr mt p.1 cond
    let r := walkStmtList mt q.1 body
    let w := walkOptStmt mt r.1 els
    (w.1, .ifStmt p.2 q.2 r.2 w.2)
  | .declStmt tok specs =>
    let p := walkSpecList mt s specs
    (p.1, .declStmt tok p.2)
  | .block b =>
    let p := walkStmtList mt s b
    (p.1, .block p.2)
  | .exprStmt e =>
    let p := walkExpr mt s e
    (p.1, .exprStmt p.2)

def walkOptStmt (mt : List String) (s : WalkState) : OptStmt → WalkState × OptStmt
  | .none => (s, .none)
  | .some st =>
    let p := walkStmt mt s st
    (p.1, .some p.2)

def walkStmtList (mt : List String) (s : WalkState) : StmtList → WalkState × StmtList
  | .nil => (s, .nil)
  | .cons h t =>
    let p := walkStmt mt s h
    let q := walkStmtList mt p.1 t
    (q.1, .cons p.2 q.2)

def walkSpec (mt : List String) (s : WalkState) : Spec → WalkState × Spec
  | .valueSpec names ty vals =>
    let p := walkOptExpr mt s ty
    let q := walkExprList mt p.1 vals
    (q.1, .valueSpec names p.2 q.2)
  | .typeSpec n ty =>
    let p := walkExpr mt s ty
    (p.1, .typeSpec n p.2)
  | .importSpec path => (s, .importSpec path)

def walkSpecList (mt : List String) (s : WalkState) : SpecList → WalkState × SpecList
  | .nil => (s, .nil)
  | .cons h t =>
    let p := walkSpec mt s h
    let q := walkSpecList mt p.1 t
    (q.1, .cons p.2 q.2)

end

/-- `resolveServerType`: the declared type name of the first parameter
named `server` whose type is a plain identifier; scanning continues
past a `server` parameter of non-identifier type. -/
def resolveServerType : FieldList → String
  | .nil => ""
  | .cons (.mk names ty) rest =>
    if names.contains serverVar then
      match ty with
      | .ident n => n
      | _ => resolveServerType rest
    else resolveServerType rest

/-- `checkIfFuncNeedField`: true when no parameter carries the given
name. -/
def checkIfFuncNeedField (params : FieldList) (fieldName : String) : Bool :=
  match params with
  | .nil => true
  | .cons (.mk names _) rest =>
    if names.contains fieldName then false else checkIfFuncNeedField rest fieldName

/-- The signature patch applied to a root function (`main.go` lines
191-194): append the interceptor parameter when `checkIfFuncNeedField`
says it is missing. -/
def patchInterceptor (params : FieldList) : FieldList :=
  if checkIfFuncNeedField params interceptorVar then
    params.append (fieldsToList [getInterceptorField])
  else params

/-- The `*ast.FuncDecl` arm of the callback (`main.go` lines 186-199),
running after the declaration's children were processed: a root
function records the server type and is signature-patched; a function
whose name was already captured in `functions` is deleted
(`cursor.Delete()`, modelled by returning `none`); everything else is
kept. -/
def walkDecl (roots mt : List String) (s : WalkState) : Decl → WalkState × Option Decl
  | .funcDecl name params results body =>
    let p := walkFieldList mt s params
    let q := walkFieldList mt p.1 results
    let r := walkStmtList mt q.1 body
    if roots.contains name then
      ({ r.1 with serverType := resolveServerType p.2 },
        Option.some (.funcDecl name (patchInterceptor p.2) q.2 r.2))
    else if (mapLookup r.1.functions name).isSome then
      (r.1, Option.none)
    else (r.1, Option.some (.funcDecl name p.2 q.2 r.2))
  | .genDecl tok specs =>
    let p := walkSpecList mt s specs
    (p.1, Option.some (.genDecl tok p.2))

def walkDecls (roots mt : List String) (s : WalkState) : List Decl → WalkState × List Decl
  | [] => (s, [])
  | d :: ds =>
    let p := walkDecl roots mt s d
    let q := walkDecls roots mt p.1 ds
    (q.1,
      match p.2 with
      | Option.some d2 => d2 :: q.2
      | Option.none => q.2)

/-! ## Per-file metadata (`protoService`, `protoFile`, the two index
maps) and the full per-file transform. -/

/-- `protoService` restricted to what the transform reads: the service
name and its method names (`MethodDescriptorProto.GetName()`). -/
structure ProtoService where
  name : String
  methods : List String
  deriving DecidableEq

/-- `protoFile`: one unit of work. -/
structure ProtoFile where
  filename : String
  services : List ProtoService
  deriving DecidableEq

/-- `getRootFunctionsNames`: map from derived root-function name to its
service (later services overwrite earlier ones on key collision, as in
a Go map). -/
def getRootFunctionsNames (input : ProtoFile) : List (String × ProtoService) :=
  input.services.foldl (fun acc svc => mapUpdate acc (rootFunctionName svc.name) svc) []

/-- `getMethodsMap`: the expected per-method call-site names of every
service in the root-function map (only membership is ever used, so the
key set is modelled as a list). -/
def getMethodsMap (roots : List (String × ProtoService)) : List String :=
  (roots.map (fun p => p.2.methods.map (methodFunctionName p.2.name))).flatten

def specHasImport (path : String) : SpecList → Bool
  | .nil => false
  | .cons (.importSpec p) rest => p = path || specHasImport path rest
  | .cons _ rest => specHasImport path rest

def declsHaveImport (path : String) : List Decl → Bool
  | [] => false
  | .genDecl .importTok specs :: rest => specHasImport path specs || declsHaveImport path rest
  | _ :: rest => declsHaveImport path rest

/-- `astutil.AddImport(fSet, fileAst, fmtPackage)`: add the import if it
is absent, keep the file unchanged otherwise.  The textual position of
the inserted import group is formatting, not structure; it is modelled
as a prepended import declaration. -/
def addImport (path : String) (ds : List Decl) : List Decl :=
  if declsHaveImport path ds then ds
  else .genDecl .importTok (specsToList [.importSpec path]) :: ds

/-- The traversal part of `processSingleProto`: build the two indexes
and run `astutil.Apply` over the parsed file. -/
def processFileState (pf : ProtoFile) (f : File) : WalkState × List Decl :=
  let rootFns := getRootFunctionsNames pf
  walkDecls (rootFns.map Prod.fst) (getMethodsMap rootFns) initState f.decls

/-- The wrapper declarations appended after the traversal (`main.go`
lines 229-231), one per captured call site, in map order. -/
def synthesizedWrappers (pf : ProtoFile) (f : File) : List Decl :=
  let p := processFileState pf f
  p.1.functions.map (fun kv => generateFunctionDeclaration kv.2 p.1.serverType)

/-- The whole in-memory transform of one parsed file: traverse, append
the synthesized wrappers, add the `fmt` import. -/
def processFile (pf : ProtoFile) (f : File) : File :=
  ⟨addImport fmtPackage ((processFileState pf f).2 ++ synthesizedWrappers pf f)⟩

/-! ## Target-path derivation and the per-file driver. -/

/-- Non-overlapping left-to-right replacement of every occurrence of
`pat` (`strings.ReplaceAll` for a non-empty pattern); `skip` counts
pattern characters still to discard from the current match. -/
def replaceAllAux (pat repl : List Char) : Nat → List Char → List Char
  | _, [] => []
  | skip + 1, _ :: rest => replaceAllAux pat repl skip rest
  | 0, c :: rest =>
    if pat.isPrefixOf (c :: rest) then
      repl ++ replaceAllAux pat repl (pat.length - 1) rest
    else c :: replaceAllAux pat repl 0 rest

/-- `strings.ReplaceAll(s, pat, repl)` for the non-empty patterns the
program uses. -/
def goReplaceAll (s pat repl : String) : String :=
  ⟨replaceAllAux pat.data repl.data 0 s.data⟩

/-- `resolveProtoFileName`: `strings.ReplaceAll(in, ".proto", "")`. -/
def resolveProtoFileName (s : String) : String := goReplaceAll s protoExtension ""

/-- `generatedFileTemplate = "%s.pb.gw.go"`. -/
def generatedFileTemplate (s : String) : String := s ++ ".pb.gw.go"

/-- The generated file path built in `processSingleProto` (line 169):
`fmt.Sprintf("%s/%s", outDir, fmt.Sprintf(generatedFileTemplate,
resolveProtoFileName(filename)))`. -/
def generatedFileName (outDir filename : String) : String :=
  outDir ++ "/" ++ generatedFileTemplate (resolveProtoFileName filename)

/-- `processSingleProto` at the interface level: parsing is an external
collaborator (`parse`), a parse failure logs and returns without
producing a write; otherwise the transformed tree is written to the
derived path.  The result is the write performed for this file, if
any. -/
def processSingleProtoRun (parse : String → Option File) (outDir : String) (pf : ProtoFile) :
    Option (String × File) :=
  let name := generatedFileName outDir pf.filename
  match parse name with
  | Option.none => Option.none
  | Option.some ast => Option.some (name, processFile pf ast)

/-- The loop of `main` (lines 147-149) over the decoded file list: each
file is processed independently; the writes are collected in order. -/
def runMain (parse : String → Option File) (outDir : String) (fs : List ProtoFile) :
    List (String × File) :=
  fs.filterMap (processSingleProtoRun parse outDir)

/-! ## Analysis layer: the traversal's effect on `lastRPCMethodName`
and the `functions` map depends only on the sequence of assignment
statements visited (in post-order), each abstracted to its match kind.
The definitions below make that visit sequence and the induced state
machine explicit; they are proof devices, not part of the embedded
program. -/

/-- What the assignment arm of the callback can see in a single
right-hand-side expression list: a `runtime.AnnotateIncomingContext`
call (with the last string-literal argument, if any), a call of a plain
identifier, or anything else. -/
inductive RKind where
  | annotateEvt (lit : Option String)
  | identCall (name : String)
  | other
  deriving DecidableEq

def litValue : Expr → Option String
  | .basicLit _ v => Option.some v
  | _ => Option.none

def identName : Expr → Option String
  | .ident n => Option.some n
  | _ => Option.none

/-- The last `*ast.BasicLit` value of an argument list, if any. -/
def lastLitOf : ExprList → Option String
  | .nil => Option.none
  | .cons e rest =>
    match lastLitOf rest with
    | Option.some v => Option.some v
    | Option.none => litValue e

/-- Match kind of a right-hand-side expression list. -/
def exprRhsKind : ExprList → RKind
  | .cons (.call fn args) .nil =>
    match fn with
    | .selector x sel =>
      match x with
      | .ident n =>
        if n = runtimePackage ∧ sel = annotateIncomingContextSelector then
          .annotateEvt (lastLitOf args)
        else .other
      | _ => .other
    | .ident f => .identCall f
    | _ => .other
  | _ => .other

/-- Match kind of a statement (non-assignments never match). -/
def stmtRhsKind : Stmt → RKind
  | .assign _ _ rhs => exprRhsKind rhs
  | _ => .other

/-- Projection of a captured call site that forgets the stored
statement. -/
structure PCap where
  rpc : String
  fname : String
  deriving DecidableEq

/-- Projection of the walk state that forgets the server type and the
stored statements; this is all the trace fold needs. -/
structure PState where
  lastRPC : String
  fns : List (String × PCap)
  deriving DecidableEq

def WalkState.toP (s : WalkState) : PState :=
  ⟨s.lastRPC, s.functions.map (fun kv => (kv.1, ⟨kv.2.rpcMethodName, kv.2.funcName⟩))⟩

def initP : PState := ⟨"", []⟩

/-- One step of the projected state machine: the state effect of
`visitAssign` on a node of the given match kind. -/
def stepP (mt : List String) (s : PState) : RKind → PState
  | .annotateEvt o => ⟨o.getD s.lastRPC, s.fns⟩
  | .identCall f =>
    let nn := generatedFunctionName f
    if mt.contains f || (mapLookup s.fns nn).isSome then
      ⟨s.lastRPC, mapUpdate s.fns nn ⟨s.lastRPC, nn⟩⟩
    else s
  | .other => s

/-- Whether a visit of the given match kind triggers the call-site
replacement (and hence a capture). -/
def fires (mt : List String) (s : PState) : RKind → Bool
  | .identCall f => mt.contains f || (mapLookup s.fns (generatedFunctionName f)).isSome
  | _ => false

/-- Number of call-site replacements performed along a visit
sequence. -/
def countFired (mt : List String) : PState → List RKind → Nat
  | _, [] => 0
  | s, k :: tr => (if fires mt s k then 1 else 0) + countFired mt (stepP mt s k) tr

/-- The expected-call-site name matched by a visit, if any. -/
def matchedName (mt : List String) : RKind → Option String
  | .identCall f => if mt.contains f then Option.some f else Option.none
  | _ => Option.none

def matchedNames (mt : List String) (tr : List RKind) : List String :=
  tr.filterMap (matchedName mt)

mutual

/-- The post-order sequence of assignment match kinds inside an
expression. -/
def traceExpr : Expr → List RKind
  | .ident _ => []
  | .selector x _ => traceExpr x
  | .call fn args => traceExpr fn ++ traceExprList args
  | .basicLit _ _ => []
  | .star x => traceExpr x
  | .paren x => traceExpr x
  | .unary _ x => traceExpr x
  | .binary _ x y => traceExpr x ++ traceExpr y
  | .composite ty elts => traceExpr ty ++ traceExprList elts
  | .keyVal k v => traceExpr k ++ traceExpr v
  | .typeAssert x ty => traceExpr x ++ traceExpr ty
  | .funcLit ps rs b => traceFieldList ps ++ traceFieldList rs ++ traceStmtList b
  | .mapType k v => traceExpr k ++ traceExpr v
  | .interfaceType => []
  | .structType fs => traceFieldList fs

def traceExprList : ExprList → List RKind
  | .nil => []
  | .cons h t => traceExpr h ++ traceExprList t

def traceOptExpr : OptExpr → List RKind
  | .none => []
  | .some e => traceExpr e

def traceField : Field → List RKind
  | .mk _ ty => traceExpr ty

def traceFieldList : FieldList → List RKind
  | .nil => []
  | .cons h t => traceField h ++ traceFieldList t

def traceStmt : Stmt → List RKind
  | .assign lhs _ rhs => traceExprList lhs ++ traceExprList rhs ++ [exprRhsKind rhs]
  | .ret rs => traceExprList rs
  | .ifStmt ini cond body els =>
    traceOptStmt ini ++ traceExpr cond ++ traceStmtList body ++ traceOptStmt els
  | .declStmt _ specs => traceSpecList specs
  | .block b => traceStmtList b
  | .exprStmt e => traceExpr e

def traceOptStmt : OptStmt → List RKind
  | .none => []
  | .some st => traceStmt st

def traceStmtList : StmtList → List RKind
  | .nil => []
  | .cons h t => traceStmt h ++ traceStmtList t

def traceSpec : Spec → List RKind
  | .valueSpec _ ty vals => traceOptExpr ty ++ traceExprList vals
  | .typeSpec _ ty => traceExpr ty
  | .importSpec _ => []

def traceSpecList : SpecList → List RKind
  | .nil => []
  | .cons h t => traceSpec h ++ traceSpecList t

end

def traceDecl : Decl → List RKind
  | .funcDecl _ params results body =>
    traceFieldList params ++ traceFieldList results ++ traceStmtList body
  | .genDecl _ specs => traceSpecList specs

def traceDecls : List Decl → List RKind
  | [] => []
  | d :: ds => traceDecl d ++ traceDecls ds

/-- The post-order visit sequence of a whole file, abstracted to
assignment match kinds. -/
def fileTrace (f : File) : List RKind := traceDecls f.decls

def keysOf (s : WalkState) : List String := s.functions.map Prod.fst

mutual

/-- `cleanExpr mt ks t`: no assignment anywhere inside `t` matches the
callback, relative to the expected-call index `mt` and the captured
keys `ks`. -/
def cleanExpr (mt ks : List String) : Expr → Bool
  | .ident _ => true
  | .selector x _ => cleanExpr mt ks x
  | .call fn args => cleanExpr mt ks fn && cleanExprList mt ks args
  | .basicLit _ _ => true
  | .star x => cleanExpr mt ks x
  | .paren x => cleanExpr mt ks x
  | .unary _ x => cleanExpr mt ks x
  | .binary _ x y => cleanExpr mt ks x && cleanExpr mt ks y
  | .composite ty elts => cleanExpr mt ks ty && cleanExprList mt ks elts
  | .keyVal k v => cleanExpr mt ks k && cleanExpr mt ks v
  | .typeAssert x ty => cleanExpr mt ks x && cleanExpr mt ks ty
  | .funcLit ps rs b =>
    cleanFieldList mt ks ps && cleanFieldList mt ks rs && cleanStmtList mt ks b
  | .mapType k v => cleanExpr mt ks k && cleanExpr mt ks v
  | .interfaceType => true
  | .structType fs => cleanFieldList mt ks fs

def cleanExprList (mt ks : List String) : ExprList → Bool
  | .nil => true
  | .cons h t => cleanExpr mt ks h && cleanExprList mt ks t

def cleanOptExpr (mt ks : List String) : OptExpr → Bool
  | .none => true
  | .some e => cleanExpr mt ks e

def cleanField (mt ks : List String) : Field → Bool
  | .mk _ ty => cleanExpr mt ks ty

def cleanFieldList (mt ks : List String) : FieldList → Bool
  | .nil => true
  | .cons h t => cleanField mt ks h && cleanFieldList mt ks t

def cleanStmt (mt ks : List String) : Stmt → Bool
  | .assign lhs _ rhs =>
    cleanExprList mt ks lhs && cleanExprList mt ks rhs &&
      (match exprRhsKind rhs with
       | .identCall f => !(mt.contains f) && !(ks.contains (generatedFunctionName f))
       | _ => true)
  | .ret rs => cleanExprList mt ks rs
  | .ifStmt ini cond body els =>
    cleanOptStmt mt ks ini && cleanExpr mt ks cond && cleanStmtList mt ks body &&
      cleanOptStmt mt ks els
  | .declStmt _ specs => cleanSpecList mt ks specs
  | .block b => cleanStmtList mt ks b
  | .exprStmt e => cleanExpr mt ks e

def cleanOptStmt (mt ks : List String) : OptStmt → Bool
  | .none => true
  | .some st => cleanStmt mt ks st

def cleanStmtList (mt ks : List String) : StmtList → Bool
  | .nil => true
  | .cons h t => cleanStmt mt ks h && cleanStmtList mt ks t

def cleanSpec (mt ks : List String) : Spec → Bool
  | .valueSpec _ ty vals => cleanOptExpr mt ks ty && cleanExprList mt ks vals
  | .typeSpec _ ty => cleanExpr mt ks ty
  | .importSpec _ => true

def cleanSpecList (mt ks : List String) : SpecList → Bool
  | .nil => true
  | .cons h t => cleanSpec mt ks h && cleanSpecList mt ks t

end

/-- `cleanDecl roots mt ks d`: the declaration is not a root function,
not a stale captured wrapper, and contains no matching assignment. -/
def cleanDecl (roots mt ks : List String) : Decl → Bool
  | .funcDecl name params results body =>
    !(roots.contains name) && !(ks.contains name) && cleanFieldList mt ks params &&
      cleanFieldList mt ks results && cleanStmtList mt ks body
  | .genDecl _ specs => cleanSpecList mt ks specs

def cleanDecls (roots mt ks : List String) : List Decl → Bool
  | [] => true
  | d :: ds => cleanDecl roots mt ks d && cleanDecls roots mt ks ds

/-! ## Observers used to state the claims. -/

def FieldList.length : FieldList → Nat
  | .nil => 0
  | .cons _ t => t.length + 1

/-- Total number of occurrences of a parameter name across a parameter
list. -/
def countParamName (n : String) : FieldList → Nat
  | .nil => 0
  | .cons (.mk names _) rest => names.count n + countParamName n rest

def fieldListGet : FieldList → Nat → Option Field
  | .nil, _ => Option.none
  | .cons h _, 0 => Option.some h
  | .cons _ t, n + 1 => fieldListGet t n

def stmtListGet : StmtList → Nat → Option Stmt
  | .nil, _ => Option.none
  | .cons h _, 0 => Option.some h
  | .cons _ t, n + 1 => stmtListGet t n

def exprListGet : ExprList → Nat → Option Expr
  | .nil, _ => Option.none
  | .cons h _, 0 => Option.some h
  | .cons _ t, n + 1 => exprListGet t n

def declNameOf : Decl → Option String
  | .funcDecl n _ _ _ => Option.some n
  | .genDecl _ _ => Option.none

/-- The `FullMethod` string literal carried by a synthesized wrapper:
the fourth body statement is the interceptor conditional, whose else
branch calls the dereferenced interceptor with the
`&grpc.UnaryServerInfo{Server: ..., FullMethod: <literal>}` argument. -/
def fullMethodOfWrapper : Decl → Option String
  | .funcDecl _ _ _ body =>
    match stmtListGet body 3 with
    | Option.some (.ifStmt _ _ _ (.some (.block (.cons (.assign _ _ (.cons (.call _ args) .nil)) .nil)))) =>
      match exprListGet args 2 with
      | Option.some (.unary .ampOp (.composite _ elts)) =>
        match exprListGet elts 1 with
        | Option.some (.keyVal _ (.basicLit _ v)) => Option.some v
        | _ => Option.none
      | _ => Option.none
    | _ => Option.none
  | _ => Option.none

/-- The third parameter of a synthesized wrapper: its `server`
parameter. -/
def serverParamOf : Decl → Option Field
  | .funcDecl _ params _ _ => fieldListGet params 2
  | _ => Option.none

/-- Decidable form of C9's hypothesis: no root-named function
declaration of the list resolves an identifier-typed `server`
parameter. -/
def noServerHint (roots : List String) : List Decl → Bool
  | [] => true
  | .funcDecl name params _ _ :: rest =>
    (!(roots.contains name) || (resolveServerType params == "")) && noServerHint roots rest
  | .genDecl _ _ :: rest => noServerHint roots rest

def totalMethods (pf : ProtoFile) : Nat :=
  (pf.services.map (fun s => s.methods.length)).sum

/-- Modelled from the claim's contrast (not from the source): the path
derivation that strips only one trailing `.proto` extension, used to
show the source's remove-all-occurrences behaviour differs from it. -/
def stripFinalProtoExtension (s : String) : String :=
  if protoExtension.data.isSuffixOf s.data then ⟨s.data.take (s.data.length - 6)⟩ else s

/-! ## Concrete instances (gateway-shaped files used as witnesses and
counterexamples). -/

/-- The method registration closure emitted by grpc-gateway inside a
root registration function: annotate the context with the RPC method
literal, then call the per-method decode-and-dispatch function. -/
def methodClosure (lit callee : String) : Expr :=
  .funcLit
    (fieldsToList [⟨["w"], .selector (.ident "http") "ResponseWriter"⟩,
                   ⟨["r"], .star (.selector (.ident "http") "Request")⟩,
                   ⟨["pathParams"], .mapType (.ident "string") (.ident "string")⟩])
    (fieldsToList [])
    (stmtToList [
      .assign (exprToList [.ident "annotatedContext", .ident "err"]) .define
        (exprToList [.call (.selector (.ident "runtime") "AnnotateIncomingContext")
          (exprToList [.ident "ctx", .basicLit .str lit])]),
      .assign (exprToList [.ident "resp", .ident "md", .ident "err"]) .define
        (exprToList [.call (.ident callee)
          (exprToList [.ident "ctx", .ident "inboundMarshaler", .ident "server",
                       .ident "req", .ident "pathParams"])])])

def rootParams : FieldList :=
  fieldsToList [⟨["ctx"], .selector (.ident "context") "Context"⟩,
                ⟨["mux"], .star (.selector (.ident "runtime") "ServeMux")⟩,
                ⟨["server"], .ident "GreeterServer"⟩]

def rootResults : FieldList := fieldsToList [⟨[], .ident "error"⟩]

/-- Root registration function with one registered method. -/
def greeterRootDecl : Decl :=
  .funcDecl "RegisterGreeterHandlerServer" rootParams rootResults
    (stmtToList [
      .exprStmt (.call (.selector (.ident "mux") "Handle")
        (exprToList [.basicLit .str "\"POST\"",
          methodClosure "\"/Greeter/SayHello\"" "local_request_Greeter_SayHello_0"]))])

/-- Root registration function with two registered methods carrying
distinct RPC method literals. -/
def twoMethodRootDecl : Decl :=
  .funcDecl "RegisterGreeterHandlerServer" rootParams rootResults
    (stmtToList [
      .exprStmt (.call (.selector (.ident "mux") "Handle")
        (exprToList [.basicLit .str "\"POST\"",
          methodClosure "\"/Greeter/SayHello\"" "local_request_Greeter_SayHello_0"])),
      .exprStmt (.call (.selector (.ident "mux") "Handle")
        (exprToList [.basicLit .str "\"POST\"",
          methodClosure "\"/Greeter/SayGoodbye\"" "local_request_Greeter_SayGoodbye_0"]))])

def contextImportDecl : Decl := .genDecl .importTok (specsToList [.importSpec "context"])

def greeterFile : File := ⟨[contextImportDecl, greeterRootDecl]⟩

def twoMethodFile : File := ⟨[contextImportDecl, twoMethodRootDecl]⟩

def greeterProto : ProtoFile := ⟨"greeter.proto", [⟨"Greeter", ["SayHello"]⟩]⟩

def twoMethodProto : ProtoFile := ⟨"greeter.proto", [⟨"Greeter", ["SayHello", "SayGoodbye"]⟩]⟩

/-- Two services whose derived call-site names collide:
`local_request_A_B_C_0` is derived both by service `A` method `B_C` and
by service `A_B` method `C`. -/
def collisionProto : ProtoFile := ⟨"col.proto", [⟨"A", ["B_C"]⟩, ⟨"A_B", ["C"]⟩]⟩

/-- A file whose single call-site assignment targets the collided
name exactly once. -/
def collisionFile : File :=
  ⟨[.funcDecl "serve" (fieldsToList []) (fieldsToList [])
      (stmtToList [
        .assign (exprToList [.ident "resp", .ident "md", .ident "err"]) .define
          (exprToList [.call (.ident "local_request_A_B_C_0")
            (exprToList [.ident "ctx"])])])]⟩

/-- A file in which the pattern `annotate; call X` occurs twice for the
same call-site name `X` with different literals. -/
def twoPairFile : File :=
  ⟨[.funcDecl "serve" (fieldsToList []) (fieldsToList [])
      (stmtToList [
        .assign (exprToList [.ident "annotatedContext", .ident "err"]) .define
          (exprToList [.call (.selector (.ident "runtime") "AnnotateIncomingContext")
            (exprToList [.ident "ctx", .basicLit .str "\"/Greeter/First\""])]),
        .assign (exprToList [.ident "resp", .ident "md", .ident "err"]) .define
          (exprToList [.call (.ident "local_request_Greeter_SayHello_0")
            (exprToList [.ident "ctx"])]),
        .assign (exprToList [.ident "annotatedContext", .ident "err"]) .define
          (exprToList [.call (.selector (.ident "runtime") "AnnotateIncomingContext")
            (exprToList [.ident "ctx", .basicLit .str "\"/Greeter/Second\""])]),
        .assign (exprToList [.ident "resp", .ident "md", .ident "err"]) .define
          (exprToList [.call (.ident "local_request_Greeter_SayHello_0")
            (exprToList [.ident "ctx"])])])]⟩

/-- A file containing none of the recognized patterns. -/
def untouchedFile : File :=
  ⟨[contextImportDecl,
    .funcDecl "helper" (fieldsToList [⟨["x"], .ident "int"⟩]) (fieldsToList [⟨[], .ident "int"⟩])
      (stmtToList [
        .assign (exprToList [.ident "a", .ident "b"]) .define
          (exprToList [.call (.ident "f") (exprToList [.ident "x"]),
                       .call (.ident "g") (exprToList [.ident "x"])]),
        .assign (exprToList [.ident "c"]) .define
          (exprToList [.call (.selector (.ident "pkg") "Do") (exprToList [.ident "a"])]),
        .ret (exprToList [.ident "c"])])]⟩

/-- A root function that has no parameter named `server` with a plain
identifier type. -/
def serverlessRootDecl : Decl :=
  .funcDecl "RegisterGreeterHandlerServer"
    (fieldsToList [⟨["ctx"], .selector (.ident "context") "Context"⟩,
                   ⟨["server"], .star (.ident "GreeterServer")⟩])
    rootResults
    (stmtToList [
      .exprStmt (.call (.selector (.ident "mux") "Handle")
        (exprToList [.basicLit .str "\"POST\"",
          methodClosure "\"/Greeter/SayHello\"" "local_request_Greeter_SayHello_0"]))])

def serverlessFile : File := ⟨[serverlessRootDecl]⟩

/-- Metadata for two proto files, used by the run-level claims. -/
def protoFileA : ProtoFile := ⟨"a.proto", [⟨"Greeter", ["SayHello"]⟩]⟩

def protoFileB : ProtoFile := ⟨"b.proto", [⟨"Greeter", ["SayHello"]⟩]⟩

/-- A parse collaborator that fails on `a.proto`'s generated file and
succeeds on `b.proto`'s. -/
def parseStub (p : String) : Option File :=
  if p = generatedFileName "out" "a.proto" then Option.none
  else if p = generatedFileName "out" "b.proto" then Option.some greeterFile
  else Option.none

/-! # Theorems -/

/-! ## Helper lemmas on names and association-list maps. -/

theorem generatedFunctionName_inj {a b : String} (h : generatedFunctionName a = generatedFunctionName b) : a = b := by
  unfold generatedFunctionName interceptorVar at h
  have hd := congrArg String.data h
  simp only [String.data_append] at hd
  exact String.ext (List.append_cancel_left hd)

theorem mapLookup_isSome_iff {α : Type} (m : List (String × α)) (k : String) :
    (mapLookup m k).isSome = true ↔ k ∈ m.map Prod.fst := by
  induction m with
  | nil => simp [mapLookup]
  | cons p rest ih =>
    obtain ⟨k2, v2⟩ := p
    by_cases hk : k2 = k
    · subst hk
      simp [mapLookup]
    · simp only [mapLookup, hk, if_false, List.map_cons, List.mem_cons, ih]
      constructor
      · exact Or.inr
      · intro hh
        rcases hh with hh | hh
        · exact absurd hh.symm hk
        · exact hh

theorem mapLookup_map_snd {α β : Type} (g : α → β) (m : List (String × α)) (k : String) :
    mapLookup (m.map (fun kv => (kv.1, g kv.2))) k = (mapLookup m k).map g := by
  induction m with
  | nil => simp [mapLookup]
  | cons p rest ih =>
    obtain ⟨k2, v2⟩ := p
    by_cases hk : k2 = k
    · subst hk
      simp [mapLookup]
    · simp [mapLookup, hk, ih]

theorem mapUpdate_map_snd {α β : Type} (g : α → β) (m : List (String × α)) (k : String) (v : α) :
    (mapUpdate m k v).map (fun kv => (kv.1, g kv.2)) =
      mapUpdate (m.map (fun kv => (kv.1, g kv.2))) k (g v) := by
  induction m with
  | nil => simp [mapUpdate]
  | cons p rest ih =>
    obtain ⟨k2, v2⟩ := p
    by_cases hk : k2 = k
    · subst hk
      simp [mapUpdate]
    · simp [mapUpdate, hk, ih]

theorem mapUpdate_mapLookup_self {α : Type} (m : List (String × α)) (k : String) (v : α) :
    mapLookup (mapUpdate m k v) k = Option.some v := by
  induction m with
  | nil => simp [mapUpdate, mapLookup]
  | cons p rest ih =>
    obtain ⟨k2, v2⟩ := p
    by_cases hk : k2 = k
    · subst hk
      simp [mapUpdate, mapLookup]
    · simp [mapUpdate, hk, mapLookup, ih]

theorem mapUpdate_mapLookup_ne {α : Type} (m : List (String × α)) (k k2 : String) (v : α)
    (h : k2 ≠ k) : mapLookup (mapUpdate m k v) k2 = mapLookup m k2 := by
  have hne : ¬ k = k2 := fun hh => h hh.symm
  induction m with
  | nil => simp [mapUpdate, mapLookup, hne]
  | cons p rest ih =>
    obtain ⟨k3, v3⟩ := p
    by_cases hk : k3 = k
    · subst hk
      simp [mapUpdate, mapLookup, hne]
    · simp [mapUpdate, hk, mapLookup, ih]

theorem mapUpdate_length_of_none {α : Type} (m : List (String × α)) (k : String) (v : α)
    (h : mapLookup m k = Option.none) : (mapUpdate m k v).length = m.length + 1 := by
  induction m with
  | nil => simp [mapUpdate]
  | cons p rest ih =>
    obtain ⟨k2, v2⟩ := p
    by_cases hk : k2 = k
    · subst hk
      simp [mapLookup] at h
    · simp only [mapLookup, hk, if_false] at h
      simp [mapUpdate, hk, ih h]

theorem mapUpdate_length_of_some {α : Type} (m : List (String × α)) (k : String) (v : α)
    (h : (mapLookup m k).isSome = true) : (mapUpdate m k v).length = m.length := by
  induction m with
  | nil => simp [mapLookup] at h
  | cons p rest ih =>
    obtain ⟨k2, v2⟩ := p
    by_cases hk : k2 = k
    · subst hk
      simp [mapUpdate]
    · simp only [mapLookup, hk, if_false] at h
      simp [mapUpdate, hk, ih h]

theorem mapUpdate_keys_of_some {α : Type} (m : List (String × α)) (k : String) (v : α)
    (h : (mapLookup m k).isSome = true) :
    (mapUpdate m k v).map Prod.fst = m.map Prod.fst := by
  induction m with
  | nil => simp [mapLookup] at h
  | cons p rest ih =>
    obtain ⟨k2, v2⟩ := p
    by_cases hk : k2 = k
    · subst hk
      simp [mapUpdate]
    · simp only [mapLookup, hk, if_false] at h
      simp [mapUpdate, hk, ih h]

theorem mapUpdate_keys_of_none {α : Type} (m : List (String × α)) (k : String) (v : α)
    (h : mapLookup m k = Option.none) :
    (mapUpdate m k v).map Prod.fst = m.map Prod.fst ++ [k] := by
  induction m with
  | nil => simp [mapUpdate]
  | cons p rest ih =>
    obtain ⟨k2, v2⟩ := p
    by_cases hk : k2 = k
    · subst hk
      simp [mapLookup] at h
    · simp only [mapLookup, hk, if_false] at h
      simp [mapUpdate, hk, ih h]

theorem mapLookup_mem {α : Type} (m : List (String × α)) (k : String) (v : α)
    (h : mapLookup m k = Option.some v) : (k, v) ∈ m := by
  induction m with
  | nil => simp [mapLookup] at h
  | cons p rest ih =>
    obtain ⟨k2, v2⟩ := p
    by_cases hk : k2 = k
    · subst hk
      have h2 : v2 = v := by simpa [mapLookup] using h
      subst h2
      exact List.mem_cons_self _ _
    · simp only [mapLookup, hk, if_false] at h
      exact List.mem_cons_of_mem _ (ih h)

/-- The Go loop over `AnnotateIncomingContext` arguments keeps the last
string literal, i.e. it computes `lastLitOf` with the incoming value as
default. -/
theorem extractLastLit_eq (l : ExprList) : ∀ acc : String,
    extractLastLit acc l = (lastLitOf l).getD acc := by
  cases l with
  | nil => intro acc; simp [extractLastLit, lastLitOf]
  | cons e rest =>
    intro acc
    have ih := extractLastLit_eq rest
    cases e <;>
      simp only [extractLastLit, lastLitOf, litValue, ih] <;>
      cases h : lastLitOf rest <;> simp

/-! ## The traversal preserves the observations the callback makes. -/

theorem litValue_walkExpr (mt : List String) (s : WalkState) (e : Expr) :
    litValue (walkExpr mt s e).2 = litValue e := by
  cases e <;> simp [walkExpr, litValue]

theorem identName_walkExpr (mt : List String) (s : WalkState) (e : Expr) :
    identName (walkExpr mt s e).2 = identName e := by
  cases e <;> simp [walkExpr, identName]

theorem lastLitOf_walkExprList (mt : List String) (l : ExprList) : ∀ s : WalkState,
    lastLitOf (walkExprList mt s l).2 = lastLitOf l := by
  cases l with
  | nil => intro s; simp [walkExprList]
  | cons e rest =>
    intro s
    have ih := lastLitOf_walkExprList mt rest (walkExpr mt s e).1
    simp only [walkExprList, lastLitOf, ih, litValue_walkExpr]

theorem exprRhsKind_walkExprList (mt : List String) (s : WalkState) (rl : ExprList) :
    exprRhsKind (walkExprList mt s rl).2 = exprRhsKind rl := by
  cases rl with
  | nil => simp [walkExprList]
  | cons e t =>
    cases t with
    | cons h2 t2 => cases e <;> simp [walkExprList, walkExpr, exprRhsKind]
    | nil =>
      cases e with
      | call fn args =>
        cases fn with
        | ident f => simp [walkExprList, walkExpr, exprRhsKind]
        | selector x sel =>
          cases x <;>
            simp [walkExprList, walkExpr, exprRhsKind, lastLitOf_walkExprList]
        | _ => simp [walkExprList, walkExpr, exprRhsKind]
      | _ => simp [walkExprList, walkExpr, exprRhsKind]

theorem toP_lastRPC (s : WalkState) (v : String) :
    ({ s with lastRPC := v } : WalkState).toP = ⟨v, s.toP.fns⟩ := by
  simp [WalkState.toP]

/-- The state effect of the assignment arm of the callback is exactly
one step of the projected state machine on the node's match kind. -/
theorem visitAssign_toP (mt : List String) (s : WalkState) (st : Stmt) :
    (visitAssign mt s st).1.toP = stepP mt s.toP (stmtRhsKind st) := by
  cases st with
  | assign lhs tok rhs =>
    cases rhs with
    | nil => simp [visitAssign, stmtRhsKind, exprRhsKind, stepP]
    | cons e t =>
      cases t with
      | cons h2 t2 => cases e <;> simp [visitAssign, stmtRhsKind, exprRhsKind, stepP]
      | nil =>
        cases e with
        | call fn args =>
          cases fn with
          | ident f =>
            simp only [visitAssign, stmtRhsKind, exprRhsKind, stepP]
            have hlk : (mapLookup s.toP.fns (generatedFunctionName f)).isSome
                = (mapLookup s.functions (generatedFunctionName f)).isSome := by
              show (mapLookup (s.functions.map
                (fun kv => (kv.1, PCap.mk kv.2.rpcMethodName kv.2.funcName)))
                (generatedFunctionName f)).isSome = _
              rw [mapLookup_map_snd (fun c : Captured => PCap.mk c.rpcMethodName c.funcName)]
              cases mapLookup s.functions (generatedFunctionName f) <;> simp
            by_cases hc : (mt.contains f || (mapLookup s.functions (generatedFunctionName f)).isSome) = true
            · rw [if_pos hc, if_pos (by rw [hlk]; exact hc)]
              show WalkState.toP _ = _
              simp only [WalkState.toP]
              rw [mapUpdate_map_snd (fun c : Captured => PCap.mk c.rpcMethodName c.funcName)]
            · rw [if_neg hc, if_neg (by rw [hlk]; exact hc)]
          | selector x sel =>
            cases x with
            | ident n =>
              simp only [visitAssign, stmtRhsKind, exprRhsKind, stepP,
                tryToExtractRPCMethodName, toP_lastRPC]
              by_cases hc : n = runtimePackage ∧ sel = annotateIncomingContextSelector
              · rw [if_pos hc, if_pos hc]
                rw [extractLastLit_eq]
                cases h : lastLitOf args <;> simp [WalkState.toP, stepP]
              · rw [if_neg hc, if_neg hc]
                simp [WalkState.toP, stepP]
            | _ =>
              simp [visitAssign, stmtRhsKind, exprRhsKind, stepP, tryToExtractRPCMethodName]
          | _ => simp [visitAssign, stmtRhsKind, exprRhsKind, stepP]
        | _ => simp [visitAssign, stmtRhsKind, exprRhsKind, stepP]
  | _ => simp [visitAssign, stmtRhsKind, stepP]

theorem toP_serverType (s : WalkState) (v : String) :
    ({ s with serverType := v } : WalkState).toP = s.toP := by
  simp [WalkState.toP]

/-! ## Trace correspondence: the projected state after walking a
subtree is the fold of the projected step over the subtree's post-order
visit sequence. -/

mutual

theorem walkExpr_trace (mt : List String) (s : WalkState) (e : Expr) :
    (walkExpr mt s e).1.toP = (traceExpr e).foldl (stepP mt) s.toP := by
  cases e with
  | ident n => simp [walkExpr, traceExpr]
  | selector x sel =>
    have h1 := walkExpr_trace mt s x
    simp only [walkExpr, traceExpr]
    rw [h1]
  | call fn args =>
    have h1 := walkExpr_trace mt s fn
    have h2 := walkExprList_trace mt (walkExpr mt s fn).1 args
    simp only [walkExpr, traceExpr, List.foldl_append]
    rw [h2, h1]
  | basicLit k v => simp [walkExpr, traceExpr]
  | star x =>
    have h1 := walkExpr_trace mt s x
    simp only [walkExpr, traceExpr]
    rw [h1]
  | paren x =>
    have h1 := walkExpr_trace mt s x
    simp only [walkExpr, traceExpr]
    rw [h1]
  | unary op x =>
    have h1 := walkExpr_trace mt s x
    simp only [walkExpr, traceExpr]
    rw [h1]
  | binary op x y =>
    have h1 := walkExpr_trace mt s x
    have h2 := walkExpr_trace mt (walkExpr mt s x).1 y
    simp only [walkExpr, traceExpr, List.foldl_append]
    rw [h2, h1]
  | composite ty elts =>
    have h1 := walkExpr_trace mt s ty
    have h2 := walkExprList_trace mt (walkExpr mt s ty).1 elts
    simp only [walkExpr, traceExpr, List.foldl_append]
    rw [h2, h1]
  | keyVal k v =>
    have h1 := walkExpr_trace mt s k
    have h2 := walkExpr_trace mt (walkExpr mt s k).1 v
    simp only [walkExpr, traceExpr, List.foldl_append]
    rw [h2, h1]
  | typeAssert x ty =>
    have h1 := walkExpr_trace mt s x
    have h2 := walkExpr_trace mt (walkExpr mt s x).1 ty
    simp only [walkExpr, traceExpr, List.foldl_append]
    rw [h2, h1]
  | funcLit ps rs b =>
    have h1 := walkFieldList_trace mt s ps
    have h2 := walkFieldList_trace mt (walkFieldList mt s ps).1 rs
    have h3 := walkStmtList_trace mt (walkFieldList mt (walkFieldList mt s ps).1 rs).1 b
    simp only [walkExpr, traceExpr, List.foldl_append]
    rw [h3, h2, h1]
  | mapType k v =>
    have h1 := walkExpr_trace mt s k
    have h2 := walkExpr_trace mt (walkExpr mt s k).1 v
    simp only [walkExpr, traceExpr, List.foldl_append]
    rw [h2, h1]
  | interfaceType => simp [walkExpr, traceExpr]
  | structType fs =>
    have h1 := walkFieldList_trace mt s fs
    simp only [walkExpr, traceExpr]
    rw [h1]

theorem walkExprList_trace (mt : List String) (s : WalkState) (l : ExprList) :
    (walkExprList mt s l).1.toP = (traceExprList l).foldl (stepP mt) s.toP := by
  cases l with
  | nil => simp [walkExprList, traceExprList]
  | cons h t =>
    have h1 := walkExpr_trace mt s h
    have h2 := walkExprList_trace mt (walkExpr mt s h).1 t
    simp only [walkExprList, traceExprList, List.foldl_append]
    rw [h2, h1]

theorem walkOptExpr_trace (mt : List String) (s : WalkState) (o : OptExpr) :
    (walkOptExpr mt s o).1.toP = (traceOptExpr o).foldl (stepP mt) s.toP := by
  cases o with
  | none => simp [walkOptExpr, traceOptExpr]
  | some e =>
    have h1 := walkExpr_trace mt s e
    simp only [walkOptExpr, traceOptExpr]
    rw [h1]

theorem walkField_trace (mt : List String) (s : WalkState) (fd : Field) :
    (walkField mt s fd).1.toP = (traceField fd).foldl (stepP mt) s.toP := by
  cases fd with
  | mk names ty =>
    have h1 := walkExpr_trace mt s ty
    simp only [walkField, traceField]
    rw [h1]

theorem walkFieldList_trace (mt : List String) (s : WalkState) (l : FieldList) :
    (walkFieldList mt s l).1.toP = (traceFieldList l).foldl (stepP mt) s.toP := by
  cases l with
  | nil => simp [walkFieldList, traceFieldList]
  | cons h t =>
    have h1 := walkField_trace mt s h
    have h2 := walkFieldList_trace mt (walkField mt s h).1 t
    simp only [walkFieldList, traceFieldList, List.foldl_append]
    rw [h2, h1]

theorem walkStmt_trace (mt : List String) (s : WalkState) (t : Stmt) :
    (walkStmt mt s t).1.toP = (traceStmt t).foldl (stepP mt) s.toP := by
  cases t with
  | assign lhs tok rhs =>
    have h1 := walkExprList_trace mt s lhs
    have h2 := walkExprList_trace mt (walkExprList mt s lhs).1 rhs
    simp only [walkStmt, traceStmt, List.foldl_append, List.foldl_cons, List.foldl_nil]
    rw [visitAssign_toP]
    simp only [stmtRhsKind, exprRhsKind_walkExprList]
    rw [h2, h1]
  | ret rs =>
    have h1 := walkExprList_trace mt s rs
    simp only [walkStmt, traceStmt]
    rw [h1]
  | ifStmt ini cond body els =>
    have h1 := walkOptStmt_trace mt s ini
    have h2 := walkExpr_trace mt (walkOptStmt mt s ini).1 cond
    have h3 := walkStmtList_trace mt (walkExpr mt (walkOptStmt mt s ini).1 cond).1 body
    have h4 := walkOptStmt_trace mt
      (walkStmtList mt (walkExpr mt (walkOptStmt mt s ini).1 cond).1 body).1 els
    simp only [walkStmt, traceStmt, List.foldl_append]
    rw [h4, h3, h2, h1]
  | declStmt tok specs =>
    have h1 := walkSpecList_trace mt s specs
    simp only [walkStmt, traceStmt]
    rw [h1]
  | block b =>
    have h1 := walkStmtList_trace mt s b
    simp only [walkStmt, traceStmt]
    rw [h1]
  | exprStmt e =>
    have h1 := walkExpr_trace mt s e
    simp only [walkStmt, traceStmt]
    rw [h1]

theorem walkOptStmt_trace (mt : List String) (s : WalkState) (o : OptStmt) :
    (walkOptStmt mt s o).1.toP = (traceOptStmt o).foldl (stepP mt) s.toP := by
  cases o with
  | none => simp [walkOptStmt, traceOptStmt]
  | some st =>
    have h1 := walkStmt_trace mt s st
    simp only [walkOptStmt, traceOptStmt]
    rw [h1]

theorem walkStmtList_trace (mt : List String) (s : WalkState) (l : StmtList) :
    (walkStmtList mt s l).1.toP = (traceStmtList l).foldl (stepP mt) s.toP := by
  cases l with
  | nil => simp [walkStmtList, traceStmtList]
  | cons h t =>
    have h1 := walkStmt_trace mt s h
    have h2 := walkStmtList_trace mt (walkStmt mt s h).1 t
    simp only [walkStmtList, traceStmtList, List.foldl_append]
    rw [h2, h1]

theorem walkSpec_trace (mt : List String) (s : WalkState) (sp : Spec) :
    (walkSpec mt s sp).1.toP = (traceSpec sp).foldl (stepP mt) s.toP := by
  cases sp with
  | valueSpec names ty vals =>
    have h1 := walkOptExpr_trace mt s ty
    have h2 := walkExprList_trace mt (walkOptExpr mt s ty).1 vals
    simp only [walkSpec, traceSpec, List.foldl_append]
    rw [h2, h1]
  | typeSpec n ty =>
    have h1 := walkExpr_trace mt s ty
    simp only [walkSpec, traceSpec]
    rw [h1]
  | importSpec p => simp [walkSpec, traceSpec]

theorem walkSpecList_trace (mt : List String) (s : WalkState) (l : SpecList) :
    (walkSpecList mt s l).1.toP = (traceSpecList l).foldl (stepP mt) s.toP := by
  cases l with
  | nil => simp [walkSpecList, traceSpecList]
  | cons h t =>
    have h1 := walkSpec_trace mt s h
    have h2 := walkSpecList_trace mt (walkSpec mt s h).1 t
    simp only [walkSpecList, traceSpecList, List.foldl_append]
    rw [h2, h1]

end

theorem visitAssign_serverType (mt : List String) (s : WalkState) (st : Stmt) :
    (visitAssign mt s st).1.serverType = s.serverType := by
  unfold visitAssign
  split
  · split
    · rfl
    · dsimp only
      split
      · rfl
      · rfl
    · rfl
  · rfl

/-! ## The traversal below declaration level never touches
`serverType`. -/

mutual

theorem walkExpr_srv (mt : List String) (s : WalkState) (e : Expr) :
    (walkExpr mt s e).1.serverType = s.serverType := by
  cases e with
  | ident n => simp [walkExpr]
  | selector x sel =>
    have h1 := walkExpr_srv mt s x
    simp only [walkExpr]
    rw [h1]
  | call fn args =>
    have h1 := walkExpr_srv mt s fn
    have h2 := walkExprList_srv mt (walkExpr mt s fn).1 args
    simp only [walkExpr]
    rw [h2, h1]
  | basicLit k v => simp [walkExpr]
  | star x =>
    have h1 := walkExpr_srv mt s x
    simp only [walkExpr]
    rw [h1]
  | paren x =>
    have h1 := walkExpr_srv mt s x
    simp only [walkExpr]
    rw [h1]
  | unary op x =>
    have h1 := walkExpr_srv mt s x
    simp only [walkExpr]
    rw [h1]
  | binary op x y =>
    have h1 := walkExpr_srv mt s x
    have h2 := walkExpr_srv mt (walkExpr mt s x).1 y
    simp only [walkExpr]
    rw [h2, h1]
  | composite ty elts =>
    have h1 := walkExpr_srv mt s ty
    have h2 := walkExprList_srv mt (walkExpr mt s ty).1 elts
    simp only [walkExpr]
    rw [h2, h1]
  | keyVal k v =>
    have h1 := walkExpr_srv mt s k
    have h2 := walkExpr_srv mt (walkExpr mt s k).1 v
    simp only [walkExpr]
    rw [h2, h1]
  | typeAssert x ty =>
    have h1 := walkExpr_srv mt s x
    have h2 := walkExpr_srv mt (walkExpr mt s x).1 ty
    simp only [walkExpr]
    rw [h2, h1]
  | funcLit ps rs b =>
    have h1 := walkFieldList_srv mt s ps
    have h2 := walkFieldList_srv mt (walkFieldList mt s ps).1 rs
    have h3 := walkStmtList_srv mt (walkFieldList mt (walkFieldList mt s ps).1 rs).1 b
    simp only [walkExpr]
    rw [h3, h2, h1]
  | mapType k v =>
    have h1 := walkExpr_srv mt s k
    have h2 := walkExpr_srv mt (walkExpr mt s k).1 v
    simp only [walkExpr]
    rw [h2, h1]
  | interfaceType => simp [walkExpr]
  | structType fs =>
    have h1 := walkFieldList_srv mt s fs
    simp only [walkExpr]
    rw [h1]

theorem walkExprList_srv (mt : List String) (s : WalkState) (l : ExprList) :
    (walkExprList mt s l).1.serverType = s.serverType := by
  cases l with
  | nil => simp [walkExprList]
  | cons h t =>
    have h1 := walkExpr_srv mt s h
    have h2 := walkExprList_srv mt (walkExpr mt s h).1 t
    simp only [walkExprList]
    rw [h2, h1]

theorem walkOptExpr_srv (mt : List String) (s : WalkState) (o : OptExpr) :
    (walkOptExpr mt s o).1.serverType = s.serverType := by
  cases o with
  | none => simp [walkOptExpr]
  | some e =>
    have h1 := walkExpr_srv mt s e
    simp only [walkOptExpr]
    rw [h1]

theorem walkField_srv (mt : List String) (s : WalkState) (fd : Field) :
    (walkField mt s fd).1.serverType = s.serverType := by
  cases fd with
  | mk names ty =>
    have h1 := walkExpr_srv mt s ty
    simp only [walkField]
    rw [h1]

theorem walkFieldList_srv (mt : List String) (s : WalkState) (l : FieldList) :
    (walkFieldList mt s l).1.serverType = s.serverType := by
  cases l with
  | nil => simp [walkFieldList]
  | cons h t =>
    have h1 := walkField_srv mt s h
    have h2 := walkFieldList_srv mt (walkField mt s h).1 t
    simp only [walkFieldList]
    rw [h2, h1]

theorem walkStmt_srv (mt : List String) (s : WalkState) (t : Stmt) :
    (walkStmt mt s t).1.serverType = s.serverType := by
  cases t with
  | assign lhs tok rhs =>
    have h1 := walkExprList_srv mt s lhs
    have h2 := walkExprList_srv mt (walkExprList mt s lhs).1 rhs
    simp only [walkStmt, traceStmt, List.foldl_append]
    rw [visitAssign_serverType, h2, h1]
  | ret rs =>
    have h1 := walkExprList_srv mt s rs
    simp only [walkStmt]
    rw [h1]
  | ifStmt ini cond body els =>
    have h1 := walkOptStmt_srv mt s ini
    have h2 := walkExpr_srv mt (walkOptStmt mt s ini).1 cond
    have h3 := walkStmtList_srv mt (walkExpr mt (walkOptStmt mt s ini).1 cond).1 body
    have h4 := walkOptStmt_srv mt
      (walkStmtList mt (walkExpr mt (walkOptStmt mt s ini).1 cond).1 body).1 els
    simp only [walkStmt]
    rw [h4, h3, h2, h1]
  | declStmt tok specs =>
    have h1 := walkSpecList_srv mt s specs
    simp only [walkStmt]
    rw [h1]
  | block b =>
    have h1 := walkStmtList_srv mt s b
    simp only [walkStmt]
    rw [h1]
  | exprStmt e =>
    have h1 := walkExpr_srv mt s e
    simp only [walkStmt]
    rw [h1]

theorem walkOptStmt_srv (mt : List String) (s : WalkState) (o : OptStmt) :
    (walkOptStmt mt s o).1.serverType = s.serverType := by
  cases o with
  | none => simp [walkOptStmt]
  | some st =>
    have h1 := walkStmt_srv mt s st
    simp only [walkOptStmt]
    rw [h1]

theorem walkStmtList_srv (mt : List String) (s : WalkState) (l : StmtList) :
    (walkStmtList mt s l).1.serverType = s.serverType := by
  cases l with
  | nil => simp [walkStmtList]
  | cons h t =>
    have h1 := walkStmt_srv mt s h
    have h2 := walkStmtList_srv mt (walkStmt mt s h).1 t
    simp only [walkStmtList]
    rw [h2, h1]

theorem walkSpec_srv (mt : List String) (s : WalkState) (sp : Spec) :
    (walkSpec mt s sp).1.serverType = s.serverType := by
  cases sp with
  | valueSpec names ty vals =>
    have h1 := walkOptExpr_srv mt s ty
    have h2 := walkExprList_srv mt (walkOptExpr mt s ty).1 vals
    simp only [walkSpec]
    rw [h2, h1]
  | typeSpec n ty =>
    have h1 := walkExpr_srv mt s ty
    simp only [walkSpec]
    rw [h1]
  | importSpec p => simp [walkSpec]

theorem walkSpecList_srv (mt : List String) (s : WalkState) (l : SpecList) :
    (walkSpecList mt s l).1.serverType = s.serverType := by
  cases l with
  | nil => simp [walkSpecList]
  | cons h t =>
    have h1 := walkSpec_srv mt s h
    have h2 := walkSpecList_srv mt (walkSpec mt s h).1 t
    simp only [walkSpecList]
    rw [h2, h1]

end

theorem walkDecl_trace (roots mt : List String) (s : WalkState) (d : Decl) :
    (walkDecl roots mt s d).1.toP = (traceDecl d).foldl (stepP mt) s.toP := by
  cases d with
  | funcDecl name params results body =>
    have h1 := walkFieldList_trace mt s params
    have h2 := walkFieldList_trace mt (walkFieldList mt s params).1 results
    have h3 := walkStmtList_trace mt
      (walkFieldList mt (walkFieldList mt s params).1 results).1 body
    simp only [walkDecl, traceDecl, List.foldl_append]
    split_ifs with hr hl
    · rw [toP_serverType, h3, h2, h1]
    · rw [h3, h2, h1]
    · rw [h3, h2, h1]
  | genDecl tok specs =>
    have h1 := walkSpecList_trace mt s specs
    simp only [walkDecl, traceDecl]
    rw [h1]

theorem walkDecls_trace (roots mt : List String) (s : WalkState) (ds : List Decl) :
    (walkDecls roots mt s ds).1.toP = (traceDecls ds).foldl (stepP mt) s.toP := by
  induction ds generalizing s with
  | nil => simp [walkDecls, traceDecls]
  | cons d rest ih =>
    have h1 := walkDecl_trace roots mt s d
    have h2 := ih (walkDecl roots mt s d).1
    simp only [walkDecls, traceDecls, List.foldl_append]
    rw [h2, h1]

/-- The traversal's final projected state is the fold of the projected
step machine over the file's visit sequence. -/
theorem processFileState_toP (pf : ProtoFile) (f : File) :
    (processFileState pf f).1.toP =
      (fileTrace f).foldl (stepP (getMethodsMap (getRootFunctionsNames pf))) initP := by
  unfold processFileState fileTrace
  rw [walkDecls_trace]
  rfl

/-! ## Frame property: on subtrees free of matching patterns the
traversal returns the subtree unchanged and captures nothing. -/

theorem visitAssign_clean (mt : List String) (s : WalkState) (lhs : ExprList)
    (tok : AssignTok) (rhs : ExprList)
    (h3 : (match exprRhsKind rhs with
           | .identCall f =>
             !(mt.contains f) && !((keysOf s).contains (generatedFunctionName f))
           | _ => true) = true) :
    (visitAssign mt s (.assign lhs tok rhs)).2 = .assign lhs tok rhs ∧
      (visitAssign mt s (.assign lhs tok rhs)).1.functions = s.functions := by
  cases rhs with
  | nil => exact ⟨rfl, rfl⟩
  | cons e t =>
    cases t with
    | cons a b => cases e <;> exact ⟨rfl, rfl⟩
    | nil =>
      cases e with
      | call fn args =>
        cases fn with
        | ident f =>
          simp only [exprRhsKind, Bool.and_eq_true, Bool.not_eq_true'] at h3
          have hlk : (mapLookup s.functions (generatedFunctionName f)).isSome = false := by
            cases hm : mapLookup s.functions (generatedFunctionName f) with
            | none => rfl
            | some v =>
              exfalso
              have hmem : generatedFunctionName f ∈ keysOf s := by
                unfold keysOf
                rw [← mapLookup_isSome_iff s.functions]
                rw [hm]
                rfl
              have hc : (keysOf s).contains (generatedFunctionName f) = true :=
                List.elem_iff.mpr hmem
              rw [h3.2] at hc
              exact Bool.false_ne_true hc
          have hnm : ¬ (f ∈ mt) := by
            intro hmm
            have hc2 : mt.contains f = true := List.elem_iff.mpr hmm
            rw [h3.1] at hc2
            exact Bool.false_ne_true hc2
          simp [visitAssign, h3.1, hlk, hnm]
        | selector x sel => exact ⟨rfl, rfl⟩
        | _ => exact ⟨rfl, rfl⟩
      | _ => exact ⟨rfl, rfl⟩

mutual

theorem walkExpr_clean (mt : List String) (s : WalkState) (e : Expr)
    (h : cleanExpr mt (keysOf s) e = true) :
    (walkExpr mt s e).2 = e ∧ (walkExpr mt s e).1.functions = s.functions := by
  cases e with
  | ident n => exact ⟨rfl, rfl⟩
  | selector x sel =>
    simp only [cleanExpr] at h
    have ih := walkExpr_clean mt s x h
    simp only [walkExpr]
    exact ⟨by rw [ih.1], ih.2⟩
  | call fn args =>
    simp only [cleanExpr, Bool.and_eq_true] at h
    have ih1 := walkExpr_clean mt s fn h.1
    have hk : keysOf (walkExpr mt s fn).1 = keysOf s := by
      unfold keysOf
      rw [ih1.2]
    have ih2 := walkExprList_clean mt (walkExpr mt s fn).1 args (by rw [hk]; exact h.2)
    simp only [walkExpr]
    exact ⟨by rw [ih1.1, ih2.1], by rw [ih2.2, ih1.2]⟩
  | basicLit k v => exact ⟨rfl, rfl⟩
  | star x =>
    simp only [cleanExpr] at h
    have ih := walkExpr_clean mt s x h
    simp only [walkExpr]
    exact ⟨by rw [ih.1], ih.2⟩
  | paren x =>
    simp only [cleanExpr] at h
    have ih := walkExpr_clean mt s x h
    simp only [walkExpr]
    exact ⟨by rw [ih.1], ih.2⟩
  | unary op x =>
    simp only [cleanExpr] at h
    have ih := walkExpr_clean mt s x h
    simp only [walkExpr]
    exact ⟨by rw [ih.1], ih.2⟩
  | binary op x y =>
    simp only [cleanExpr, Bool.and_eq_true] at h
    have ih1 := walkExpr_clean mt s x h.1
    have hk : keysOf (walkExpr mt s x).1 = keysOf s := by
      unfold keysOf
      rw [ih1.2]
    have ih2 := walkExpr_clean mt (walkExpr mt s x).1 y (by rw [hk]; exact h.2)
    simp only [walkExpr]
    exact ⟨by rw [ih1.1, ih2.1], by rw [ih2.2, ih1.2]⟩
  | composite ty elts =>
    simp only [cleanExpr, Bool.and_eq_true] at h
    have ih1 := walkExpr_clean mt s ty h.1
    have hk : keysOf (walkExpr mt s ty).1 = keysOf s := by
      unfold keysOf
      rw [ih1.2]
    have ih2 := walkExprList_clean mt (walkExpr mt s ty).1 elts (by rw [hk]; exact h.2)
    simp only [walkExpr]
    exact ⟨by rw [ih1.1, ih2.1], by rw [ih2.2, ih1.2]⟩
  | keyVal k v =>
    simp only [cleanExpr, Bool.and_eq_true] at h
    have ih1 := walkExpr_clean mt s k h.1
    have hk : keysOf (walkExpr mt s k).1 = keysOf s := by
      unfold keysOf
      rw [ih1.2]
    have ih2 := walkExpr_clean mt (walkExpr mt s k).1 v (by rw [hk]; exact h.2)
    simp only [walkExpr]
    exact ⟨by rw [ih1.1, ih2.1], by rw [ih2.2, ih1.2]⟩
  | typeAssert x ty =>
    simp only [cleanExpr, Bool.and_eq_true] at h
    have ih1 := walkExpr_clean mt s x h.1
    have hk : keysOf (walkExpr mt s x).1 = keysOf s := by
      unfold keysOf
      rw [ih1.2]
    have ih2 := walkExpr_clean mt (walkExpr mt s x).1 ty (by rw [hk]; exact h.2)
    simp only [walkExpr]
    exact ⟨by rw [ih1.1, ih2.1], by rw [ih2.2, ih1.2]⟩
  | funcLit ps rs b =>
    simp only [cleanExpr, Bool.and_eq_true] at h
    obtain ⟨⟨h1, h2⟩, h3⟩ := h
    have ih1 := walkFieldList_clean mt s ps h1
    have hk1 : keysOf (walkFieldList mt s ps).1 = keysOf s := by
      unfold keysOf
      rw [ih1.2]
    have ih2 := walkFieldList_clean mt (walkFieldList mt s ps).1 rs (by rw [hk1]; exact h2)
    have hk2 : keysOf (walkFieldList mt (walkFieldList mt s ps).1 rs).1 = keysOf s := by
      unfold keysOf
      rw [ih2.2, ih1.2]
    have ih3 := walkStmtList_clean mt (walkFieldList mt (walkFieldList mt s ps).1 rs).1 b
      (by rw [hk2]; exact h3)
    simp only [walkExpr]
    exact ⟨by rw [ih1.1, ih2.1, ih3.1], by rw [ih3.2, ih2.2, ih1.2]⟩
  | mapType k v =>
    simp only [cleanExpr, Bool.and_eq_true] at h
    have ih1 := walkExpr_clean mt s k h.1
    have hk : keysOf (walkExpr mt s k).1 = keysOf s := by
      unfold keysOf
      rw [ih1.2]
    have ih2 := walkExpr_clean mt (walkExpr mt s k).1 v (by rw [hk]; exact h.2)
    simp only [walkExpr]
    exact ⟨by rw [ih1.1, ih2.1], by rw [ih2.2, ih1.2]⟩
  | interfaceType => exact ⟨rfl, rfl⟩
  | structType fs =>
    simp only [cleanExpr] at h
    have ih := walkFieldList_clean mt s fs h
    simp only [walkExpr]
    exact ⟨by rw [ih.1], ih.2⟩

theorem walkExprList_clean (mt : List String) (s : WalkState) (l : ExprList)
    (h : cleanExprList mt (keysOf s) l = true) :
    (walkExprList mt s l).2 = l ∧ (walkExprList mt s l).1.functions = s.functions := by
  cases l with
  | nil => exact ⟨rfl, rfl⟩
  | cons e t =>
    simp only [cleanExprList, Bool.and_eq_true] at h
    have ih1 := walkExpr_clean mt s e h.1
    have hk : keysOf (walkExpr mt s e).1 = keysOf s := by
      unfold keysOf
      rw [ih1.2]
    have ih2 := walkExprList_clean mt (walkExpr mt s e).1 t (by rw [hk]; exact h.2)
    simp only [walkExprList]
    exact ⟨by rw [ih1.1, ih2.1], by rw [ih2.2, ih1.2]⟩

theorem walkOptExpr_clean (mt : List String) (s : WalkState) (o : OptExpr)
    (h : cleanOptExpr mt (keysOf s) o = true) :
    (walkOptExpr mt s o).2 = o ∧ (walkOptExpr mt s o).1.functions = s.functions := by
  cases o with
  | none => exact ⟨rfl, rfl⟩
  | some e =>
    simp only [cleanOptExpr] at h
    have ih := walkExpr_clean mt s e h
    simp only [walkOptExpr]
    exact ⟨by rw [ih.1], ih.2⟩

theorem walkField_clean (mt : List String) (s : WalkState) (fd : Field)
    (h : cleanField mt (keysOf s) fd = true) :
    (walkField mt s fd).2 = fd ∧ (walkField mt s fd).1.functions = s.functions := by
  cases fd with
  | mk names ty =>
    simp only [cleanField] at h
    have ih := walkExpr_clean mt s ty h
    simp only [walkField]
    exact ⟨by rw [ih.1], ih.2⟩

theorem walkFieldList_clean (mt : List String) (s : WalkState) (l : FieldList)
    (h : cleanFieldList mt (keysOf s) l = true) :
    (walkFieldList mt s l).2 = l ∧ (walkFieldList mt s l).1.functions = s.functions := by
  cases l with
  | nil => exact ⟨rfl, rfl⟩
  | cons fd t =>
    simp only [cleanFieldList, Bool.and_eq_true] at h
    have ih1 := walkField_clean mt s fd h.1
    have hk : keysOf (walkField mt s fd).1 = keysOf s := by
      unfold keysOf
      rw [ih1.2]
    have ih2 := walkFieldList_clean mt (walkField mt s fd).1 t (by rw [hk]; exact h.2)
    simp only [walkFieldList]
    exact ⟨by rw [ih1.1, ih2.1], by rw [ih2.2, ih1.2]⟩

theorem walkStmt_clean (mt : List String) (s : WalkState) (t : Stmt)
    (h : cleanStmt mt (keysOf s) t = true) :
    (walkStmt mt s t).2 = t ∧ (walkStmt mt s t).1.functions = s.functions := by
  cases t with
  | assign lhs tok rhs =>
    simp only [cleanStmt, Bool.and_eq_true] at h
    obtain ⟨⟨h1, h2⟩, h3⟩ := h
    have ih1 := walkExprList_clean mt s lhs h1
    have hk : keysOf (walkExprList mt s lhs).1 = keysOf s := by
      unfold keysOf
      rw [ih1.2]
    have ih2 := walkExprList_clean mt (walkExprList mt s lhs).1 rhs (by rw [hk]; exact h2)
    have hkq : (walkExprList mt (walkExprList mt s lhs).1 rhs).1.functions = s.functions := by
      rw [ih2.2, ih1.2]
    have hkeys : keysOf (walkExprList mt (walkExprList mt s lhs).1 rhs).1 = keysOf s := by
      unfold keysOf
      rw [hkq]
    have hva := visitAssign_clean mt (walkExprList mt (walkExprList mt s lhs).1 rhs).1
      lhs tok rhs (by rw [hkeys]; exact h3)
    simp only [walkStmt]
    rw [ih1.1, ih2.1]
    exact ⟨by rw [hva.1], by rw [hva.2, hkq]⟩
  | ret rs =>
    simp only [cleanStmt] at h
    have ih := walkExprList_clean mt s rs h
    simp only [walkStmt]
    exact ⟨by rw [ih.1], ih.2⟩
  | ifStmt ini cond body els =>
    simp only [cleanStmt, Bool.and_eq_true] at h
    obtain ⟨⟨⟨h1, h2⟩, h3⟩, h4⟩ := h
    have ih1 := walkOptStmt_clean mt s ini h1
    have hk1 : keysOf (walkOptStmt mt s ini).1 = keysOf s := by
      unfold keysOf
      rw [ih1.2]
    have ih2 := walkExpr_clean mt (walkOptStmt mt s ini).1 cond (by rw [hk1]; exact h2)
    have hk2 : keysOf (walkExpr mt (walkOptStmt mt s ini).1 cond).1 = keysOf s := by
      unfold keysOf
      rw [ih2.2, ih1.2]
    have ih3 := walkStmtList_clean mt (walkExpr mt (walkOptStmt mt s ini).1 cond).1 body
      (by rw [hk2]; exact h3)
    have hk3 : keysOf (walkStmtList mt (walkExpr mt (walkOptStmt mt s ini).1 cond).1 body).1
        = keysOf s := by
      unfold keysOf
      rw [ih3.2, ih2.2, ih1.2]
    have ih4 := walkOptStmt_clean mt
      (walkStmtList mt (walkExpr mt (walkOptStmt mt s ini).1 cond).1 body).1 els
      (by rw [hk3]; exact h4)
    simp only [walkStmt]
    exact ⟨by rw [ih1.1, ih2.1, ih3.1, ih4.1], by rw [ih4.2, ih3.2, ih2.2, ih1.2]⟩
  | declStmt tok specs =>
    simp only [cleanStmt] at h
    have ih := walkSpecList_clean mt s specs h
    simp only [walkStmt]
    exact ⟨by rw [ih.1], ih.2⟩
  | block b =>
    simp only [cleanStmt] at h
    have ih := walkStmtList_clean mt s b h
    simp only [walkStmt]
    exact ⟨by rw [ih.1], ih.2⟩
  | exprStmt e =>
    simp only [cleanStmt] at h
    have ih := walkExpr_clean mt s e h
    simp only [walkStmt]
    exact ⟨by rw [ih.1], ih.2⟩

theorem walkOptStmt_clean (mt : List String) (s : WalkState) (o : OptStmt)
    (h : cleanOptStmt mt (keysOf s) o = true) :
    (walkOptStmt mt s o).2 = o ∧ (walkOptStmt mt s o).1.functions = s.functions := by
  cases o with
  | none => exact ⟨rfl, rfl⟩
  | some st =>
    simp only [cleanOptStmt] at h
    have ih := walkStmt_clean mt s st h
    simp only [walkOptStmt]
    exact ⟨by rw [ih.1], ih.2⟩

theorem walkStmtList_clean (mt : List String) (s : WalkState) (l : StmtList)
    (h : cleanStmtList mt (keysOf s) l = true) :
    (walkStmtList mt s l).2 = l ∧ (walkStmtList mt s l).1.functions = s.functions := by
  cases l with
  | nil => exact ⟨rfl, rfl⟩
  | cons st t =>
    simp only [cleanStmtList, Bool.and_eq_true] at h
    have ih1 := walkStmt_clean mt s st h.1
    have hk : keysOf (walkStmt mt s st).1 = keysOf s := by
      unfold keysOf
      rw [ih1.2]
    have ih2 := walkStmtList_clean mt (walkStmt mt s st).1 t (by rw [hk]; exact h.2)
    simp only [walkStmtList]
    exact ⟨by rw [ih1.1, ih2.1], by rw [ih2.2, ih1.2]⟩

theorem walkSpec_clean (mt : List String) (s : WalkState) (sp : Spec)
    (h : cleanSpec mt (keysOf s) sp = true) :
    (walkSpec mt s sp).2 = sp ∧ (walkSpec mt s sp).1.functions = s.functions := by
  cases sp with
  | valueSpec names ty vals =>
    simp only [cleanSpec, Bool.and_eq_true] at h
    have ih1 := walkOptExpr_clean mt s ty h.1
    have hk : keysOf (walkOptExpr mt s ty).1 = keysOf s := by
      unfold keysOf
      rw [ih1.2]
    have ih2 := walkExprList_clean mt (walkOptExpr mt s ty).1 vals (by rw [hk]; exact h.2)
    simp only [walkSpec]
    exact ⟨by rw [ih1.1, ih2.1], by rw [ih2.2, ih1.2]⟩
  | typeSpec n ty =>
    simp only [cleanSpec] at h
    have ih := walkExpr_clean mt s ty h
    simp only [walkSpec]
    exact ⟨by rw [ih.1], ih.2⟩
  | importSpec p => exact ⟨rfl, rfl⟩

theorem walkSpecList_clean (mt : List String) (s : WalkState) (l : SpecList)
    (h : cleanSpecList mt (keysOf s) l = true) :
    (walkSpecList mt s l).2 = l ∧ (walkSpecList mt s l).1.functions = s.functions := by
  cases l with
  | nil => exact ⟨rfl, rfl⟩
  | cons sp t =>
    simp only [cleanSpecList, Bool.and_eq_true] at h
    have ih1 := walkSpec_clean mt s sp h.1
    have hk : keysOf (walkSpec mt s sp).1 = keysOf s := by
      unfold keysOf
      rw [ih1.2]
    have ih2 := walkSpecList_clean mt (walkSpec mt s sp).1 t (by rw [hk]; exact h.2)
    simp only [walkSpecList]
    exact ⟨by rw [ih1.1, ih2.1], by rw [ih2.2, ih1.2]⟩

end

theorem walkDecl_clean (roots mt : List String) (s : WalkState) (d : Decl)
    (h : cleanDecl roots mt (keysOf s) d = true) :
    (walkDecl roots mt s d).2 = Option.some d ∧
      (walkDecl roots mt s d).1.functions = s.functions := by
  cases d with
  | funcDecl name params results body =>
    simp only [cleanDecl, Bool.and_eq_true, Bool.not_eq_true'] at h
    obtain ⟨⟨⟨⟨hr, hks⟩, hp⟩, hrs⟩, hb⟩ := h
    have ih1 := walkFieldList_clean mt s params hp
    have hk1 : keysOf (walkFieldList mt s params).1 = keysOf s := by
      unfold keysOf
      rw [ih1.2]
    have ih2 := walkFieldList_clean mt (walkFieldList mt s params).1 results
      (by rw [hk1]; exact hrs)
    have hk2 : keysOf (walkFieldList mt (walkFieldList mt s params).1 results).1 = keysOf s := by
      unfold keysOf
      rw [ih2.2, ih1.2]
    have ih3 := walkStmtList_clean mt
      (walkFieldList mt (walkFieldList mt s params).1 results).1 body (by rw [hk2]; exact hb)
    have hfq : (walkStmtList mt
        (walkFieldList mt (walkFieldList mt s params).1 results).1 body).1.functions
        = s.functions := by
      rw [ih3.2, ih2.2, ih1.2]
    have hnr : ¬ (roots.contains name = true) := by
      rw [hr]
      exact Bool.false_ne_true
    have hlk : (mapLookup (walkStmtList mt
        (walkFieldList mt (walkFieldList mt s params).1 results).1 body).1.functions
        name).isSome = false := by
      rw [hfq]
      cases hm : mapLookup s.functions name with
      | none => rfl
      | some v =>
        exfalso
        have hmem : name ∈ keysOf s := by
          unfold keysOf
          rw [← mapLookup_isSome_iff]
          rw [hm]
          rfl
        have hc : (keysOf s).contains name = true := List.elem_iff.mpr hmem
        rw [hks] at hc
        exact Bool.false_ne_true hc
    simp only [walkDecl]
    rw [if_neg hnr, if_neg (by rw [hlk]; exact Bool.false_ne_true)]
    constructor
    · rw [ih1.1, ih2.1, ih3.1]
    · exact hfq
  | genDecl tok specs =>
    simp only [cleanDecl] at h
    have ih := walkSpecList_clean mt s specs h
    simp only [walkDecl]
    exact ⟨by rw [ih.1], ih.2⟩

theorem walkDecls_clean (roots mt : List String) (s : WalkState) (ds : List Decl)
    (h : cleanDecls roots mt (keysOf s) ds = true) :
    (walkDecls roots mt s ds).2 = ds ∧ (walkDecls roots mt s ds).1.functions = s.functions := by
  induction ds generalizing s with
  | nil => exact ⟨rfl, rfl⟩
  | cons d rest ih =>
    simp only [cleanDecls, Bool.and_eq_true] at h
    have ih1 := walkDecl_clean roots mt s d h.1
    have hk : keysOf (walkDecl roots mt s d).1 = keysOf s := by
      unfold keysOf
      rw [ih1.2]
    have ih2 := ih (walkDecl roots mt s d).1 (by rw [hk]; exact h.2)
    refine ⟨?_, ?_⟩
    · simp only [walkDecls]
      rw [ih1.1]
      dsimp only
      rw [ih2.1]
    · simp only [walkDecls]
      rw [ih2.2, ih1.2]

/-! ## Claim C6: signature patch idempotence. -/

theorem checkIfFuncNeedField_iff (params : FieldList) :
    checkIfFuncNeedField params interceptorVar = true ↔
      countParamName interceptorVar params = 0 := by
  cases params with
  | nil => simp [checkIfFuncNeedField, countParamName]
  | cons fd rest =>
    have ih := checkIfFuncNeedField_iff rest
    obtain ⟨names, ty⟩ := fd
    simp only [checkIfFuncNeedField, countParamName]
    by_cases hn : names.contains interceptorVar = true
    · rw [if_pos hn]
      have hmem : interceptorVar ∈ names := List.elem_iff.mp hn
      have hcnt : names.count interceptorVar ≠ 0 := by
        rw [ne_eq, List.count_eq_zero]
        intro hc
        exact hc hmem
      constructor
      · intro hfalse
        exact absurd hfalse (by simp)
      · intro hz
        exfalso
        omega
    · rw [if_neg hn]
      have hnmem : interceptorVar ∉ names := fun hm => hn (List.elem_iff.mpr hm)
      have hcnt : names.count interceptorVar = 0 := List.count_eq_zero.mpr hnmem
      rw [hcnt]
      simpa using ih

theorem countParamName_append (n : String) (l1 l2 : FieldList) :
    countParamName n (l1.append l2) = countParamName n l1 + countParamName n l2 := by
  cases l1 with
  | nil => simp [FieldList.append, countParamName]
  | cons fd rest =>
    have ih := countParamName_append n rest l2
    obtain ⟨names, ty⟩ := fd
    simp [FieldList.append, countParamName, ih]
    omega

theorem FieldList.length_append (l1 l2 : FieldList) :
    (l1.append l2).length = l1.length + l2.length := by
  cases l1 with
  | nil => simp [FieldList.append, FieldList.length]
  | cons fd rest =>
    have ih := FieldList.length_append rest l2
    simp [FieldList.append, FieldList.length, ih]
    omega

/-- C6.  Signature patch idempotence: the interceptor parameter
(`interceptor *grpc.UnaryServerInterceptor`) is appended to a root
function's parameter list if and only if no existing parameter is named
`interceptor`; after one application on a parameter list without it the
parameter occurs exactly once, and further applications of the patcher
change nothing.  (`checkIfFuncNeedField` guards the append performed at
`main.go` lines 191-194 on every root-named function declaration.) -/
theorem claim_c6 (params : FieldList) :
    ((patchInterceptor params = params.append (fieldsToList [getInterceptorField])) ↔
      countParamName interceptorVar params = 0) ∧
    (countParamName interceptorVar params = 0 →
      countParamName interceptorVar (patchInterceptor params) = 1) ∧
    patchInterceptor (patchInterceptor params) = patchInterceptor params := by
  have hlen := FieldList.length_append
  have happ : countParamName interceptorVar (params.append (fieldsToList [getInterceptorField]))
      = countParamName interceptorVar params + 1 := by
    rw [countParamName_append]
    rfl
  refine ⟨⟨?_, ?_⟩, ?_, ?_⟩
  · intro heq
    by_cases hc : checkIfFuncNeedField params interceptorVar = true
    · exact (checkIfFuncNeedField_iff params).mp hc
    · exfalso
      unfold patchInterceptor at heq
      rw [if_neg hc] at heq
      have := congrArg FieldList.length heq
      rw [hlen] at this
      simp [FieldList.length] at this
  · intro hz
    unfold patchInterceptor
    rw [if_pos ((checkIfFuncNeedField_iff params).mpr hz)]
  · intro hz
    unfold patchInterceptor
    rw [if_pos ((checkIfFuncNeedField_iff params).mpr hz), happ, hz]
  · by_cases hc : checkIfFuncNeedField params interceptorVar = true
    · have h1 : patchInterceptor params = params.append (fieldsToList [getInterceptorField]) := by
        unfold patchInterceptor
        rw [if_pos hc]
      have h2 : countParamName interceptorVar (patchInterceptor params) ≠ 0 := by
        rw [h1, happ]
        omega
      have h3 : ¬ checkIfFuncNeedField (patchInterceptor params) interceptorVar = true := by
        intro hcc
        exact h2 ((checkIfFuncNeedField_iff _).mp hcc)
      have houter : patchInterceptor (patchInterceptor params) =
          if checkIfFuncNeedField (patchInterceptor params) interceptorVar = true then
            (patchInterceptor params).append (fieldsToList [getInterceptorField])
          else patchInterceptor params := rfl
      rw [houter, if_neg h3]
    · have h1 : patchInterceptor params = params := by
        unfold patchInterceptor
        rw [if_neg hc]
      rw [h1, h1]

/-- Witness for C6 at the example root-function parameter list. -/
theorem claim_c6_witness :
    countParamName interceptorVar (patchInterceptor rootParams) = 1 ∧
      patchInterceptor (patchInterceptor rootParams) = patchInterceptor rootParams :=
  ⟨(claim_c6 rootParams).2.1 (by decide), (claim_c6 rootParams).2.2⟩

/-! ## Claim C4: shape of the call-site rewrite. -/

/-- C4.  Every matched call-site assignment — a single right-hand call
of a plain identifier `F` with `F` in the expected-call index or
`interceptor_F` already captured — is replaced by exactly
`md, resp, err := interceptor_F(ctx, annotatedContext,
inboundMarshaler, server, interceptor, req, pathParams)`
(`generateAssignmentStatement` at the callback's replacement site,
`main.go` lines 207-219 and 342-359), regardless of the original
left-hand side, token and arguments. -/
theorem claim_c4 (mt : List String) (s : WalkState) (lhs : ExprList) (tok : AssignTok)
    (f : String) (args : ExprList)
    (h : mt.contains f = true ∨
      (mapLookup s.functions (generatedFunctionName f)).isSome = true) :
    (visitAssign mt s (.assign lhs tok (.cons (.call (.ident f) args) .nil))).2 =
      .assign
        (.cons (.ident "md") (.cons (.ident "resp") (.cons (.ident "err") .nil)))
        .define
        (.cons
          (.call (.ident ("interceptor_" ++ f))
            (.cons (.ident "ctx") (.cons (.ident "annotatedContext")
              (.cons (.ident "inboundMarshaler") (.cons (.ident "server")
                (.cons (.ident "interceptor") (.cons (.ident "req")
                  (.cons (.ident "pathParams") .nil))))))))
          .nil) := by
  have hc : (mt.contains f || (mapLookup s.functions (generatedFunctionName f)).isSome) = true := by
    rcases h with h | h
    · rw [h]
      rfl
    · rw [h]
      simp
  simp only [visitAssign]
  rw [if_pos hc]
  rfl

/-- Witness for C4: a concrete matched call site. -/
theorem claim_c4_witness :
    (visitAssign ["local_request_Greeter_SayHello_0"] initState
      (.assign (.cons (.ident "resp") .nil) .define
        (.cons (.call (.ident "local_request_Greeter_SayHello_0") .nil) .nil))).2 =
      .assign
        (.cons (.ident "md") (.cons (.ident "resp") (.cons (.ident "err") .nil)))
        .define
        (.cons
          (.call (.ident ("interceptor_" ++ "local_request_Greeter_SayHello_0"))
            (.cons (.ident "ctx") (.cons (.ident "annotatedContext")
              (.cons (.ident "inboundMarshaler") (.cons (.ident "server")
                (.cons (.ident "interceptor") (.cons (.ident "req")
                  (.cons (.ident "pathParams") .nil))))))))
          .nil) :=
  claim_c4 ["local_request_Greeter_SayHello_0"] initState
    (.cons (.ident "resp") .nil) .define "local_request_Greeter_SayHello_0" .nil
    (Or.inl (by decide))

/-! ## Claim C5: the synthesized wrapper is template-stable. -/

/-- C5.  `generateFunctionDeclaration` always produces the fixed
wrapper shape: parameters `(ctx, annotatedContext context.Context;
inboundMarshaler runtime.Marshaler; server <ServerTypeHint>;
interceptor *grpc.UnaryServerInterceptor; req *http.Request; pathParams
map[string]string)`, results `(md runtime.ServerMetadata; resp
proto.Message; err error)`, and the eight-statement body (local
`handlerResponse` record, handler closure splicing the captured
assignment, untyped result holder, nil-interceptor conditional with the
`grpc.UnaryServerInfo{Server, FullMethod}` record, early return on
error, type assertion with early return, final return).  The only
per-instance variation is the function name, the server type, the RPC
method literal and the spliced original assignment. -/
theorem claim_c5 (funcData : Captured) (serverType : String) :
    generateFunctionDeclaration funcData serverType =
      .funcDecl funcData.funcName
        (fieldsToList
          [.mk ["ctx", "annotatedContext"] (.selector (.ident "context") "Context"),
           .mk ["inboundMarshaler"] (.selector (.ident "runtime") "Marshaler"),
           .mk ["server"] (.ident serverType),
           .mk ["interceptor"] (.star (.selector (.ident "grpc") "UnaryServerInterceptor")),
           .mk ["req"] (.star (.selector (.ident "http") "Request")),
           .mk ["pathParams"] (.mapType (.ident "string") (.ident "string"))])
        (fieldsToList
          [.mk ["md"] (.selector (.ident "runtime") "ServerMetadata"),
           .mk ["resp"] (.selector (.ident "proto") "Message"),
           .mk ["err"] (.ident "error")])
        (stmtToList
          [.declStmt .typeTok (specsToList
            [.typeSpec "handlerResponse"
              (.structType (fieldsToList
                [.mk ["md"] (.selector (.ident "runtime") "ServerMetadata"),
                 .mk ["resp"] (.selector (.ident "proto") "Message")]))]),
           .assign (exprToList [.ident "handler"]) .define (exprToList
             [.funcLit
               (fieldsToList
                 [.mk ["ctx"] (.selector (.ident "context") "Context"),
                  .mk ["req"] .interfaceType])
               (fieldsToList [.mk [""] .interfaceType, .mk [] (.ident "error")])
               (stmtToList
                 [.ifStmt
                   (.some (.assign (exprToList [.ident "req", .ident "ok"]) .define
                     (exprToList [.typeAssert (.ident "req")
                       (.star (.selector (.ident "http") "Request"))])))
                   (.ident "ok")
                   (stmtToList
                     [funcData.assignStmt,
                      .ret (exprToList
                        [.composite (.ident "handlerResponse") (exprToList
                          [.keyVal (.ident "resp") (.ident "resp"),
                           .keyVal (.ident "md") (.ident "md")]),
                         .ident "err"])])
                   .none,
                  .ret (exprToList
                    [.ident "nil",
                     .call (.selector (.ident "fmt") "Errorf") (exprToList
                       [.basicLit .str "\"error converting req to *http.Request\""])])])]),
           .declStmt .varTok (specsToList
             [.valueSpec ["handlerResponseItem"] (.some .interfaceType) (exprToList [])]),
           .ifStmt .none (.binary .eql (.ident "interceptor") (.ident "nil"))
             (stmtToList
               [.assign (exprToList [.ident "handlerResponseItem", .ident "err"]) .assign
                 (exprToList [.call (.ident "handler")
                   (exprToList [.ident "ctx", .ident "req"])])])
             (.some (.block (stmtToList
               [.assign (exprToList [.ident "handlerResponseItem", .ident "err"]) .assign
                 (exprToList [.call (.paren (.star (.ident "interceptor")))
                   (exprToList
                     [.ident "ctx", .ident "req",
                      .unary .ampOp (.composite
                        (.selector (.ident "grpc") "UnaryServerInfo")
                        (exprToList
                          [.keyVal (.ident "Server") (.ident "server"),
                           .keyVal (.ident "FullMethod")
                             (.basicLit .str funcData.rpcMethodName)])),
                      .ident "handler"])])]))),
           .ifStmt .none (.binary .neq (.ident "err") (.ident "nil"))
             (stmtToList [.ret (exprToList [])]) .none,
           .assign (exprToList [.ident "data", .ident "ok"]) .define
             (exprToList [.typeAssert (.ident "handlerResponseItem")
               (.ident "handlerResponse")]),
           .ifStmt .none (.unary .notOp (.ident "ok"))
             (stmtToList [.ret (exprToList [])]) .none,
           .ret (exprToList
             [.selector (.ident "data") "md", .selector (.ident "data") "resp",
              .ident "nil"])]) := rfl

/-! ## Claim C1: full-pipeline idempotence (corrected). -/

set_option maxRecDepth 100000 in
/-- C1 counterexample.  For the two-method file the pipeline is not
idempotent: run 2 deletes and re-generates both wrappers, and the
`lastRPCMethodName` accumulator — by then holding the file's last
annotate literal — overwrites the first wrapper's `FullMethod` literal,
so run 2's output differs from run 1's. -/
theorem claim_c1_counterexample :
    processFile twoMethodProto (processFile twoMethodProto twoMethodFile) ≠
        processFile twoMethodProto twoMethodFile ∧
      (synthesizedWrappers twoMethodProto twoMethodFile).map fullMethodOfWrapper =
        [Option.some "\"/Greeter/SayHello\"", Option.some "\"/Greeter/SayGoodbye\""] ∧
      (synthesizedWrappers twoMethodProto
          (processFile twoMethodProto twoMethodFile)).map fullMethodOfWrapper =
        [Option.some "\"/Greeter/SayGoodbye\"", Option.some "\"/Greeter/SayGoodbye\""] := by
  refine ⟨?_, by decide, by decide⟩
  decide

set_option maxRecDepth 100000 in
/-- C1 amended.  With a single captured call site (the spec's example
scenario: one service, one method) the pipeline is idempotent: the
second run deletes the one stale wrapper, re-captures the same spliced
assignment under the same literal, re-appends an identical wrapper and
leaves everything else unchanged, reproducing run 1's output
exactly. -/
theorem claim_c1 :
    processFile greeterProto (processFile greeterProto greeterFile) =
      processFile greeterProto greeterFile := by
  decide

/-! ## Claim C8: behaviour of the run on a parse failure
(corrected). -/

/-- C8 counterexample.  A parse failure for the first file's generated
source does not abort the run: `processSingleProto` merely logs and
returns, and `main`'s loop continues, so the second file is still
processed and written. -/
theorem claim_c8_counterexample :
    parseStub (generatedFileName "out" "a.proto") = Option.none ∧
      runMain parseStub "out" [protoFileA, protoFileB] =
        [(generatedFileName "out" "b.proto", processFile protoFileB greeterFile)] := by
  constructor
  · decide
  · decide

/-- C8 amended.  When parsing the generated source for a
FileDescriptor fails, only that file is skipped — nothing is written
for it — and the remaining FileDescriptors are processed exactly as if
the failed one were absent. -/
theorem claim_c8 (parse : String → Option File) (outDir : String) (pf : ProtoFile)
    (fs : List ProtoFile)
    (h : parse (generatedFileName outDir pf.filename) = Option.none) :
    runMain parse outDir (pf :: fs) = runMain parse outDir fs := by
  unfold runMain
  rw [List.filterMap_cons]
  have hnone : processSingleProtoRun parse outDir pf = Option.none := by
    simp only [processSingleProtoRun, h]
  rw [hnone]

/-- Witness for C8 at the stubbed parse collaborator. -/
theorem claim_c8_witness :
    runMain parseStub "out" [protoFileA, protoFileB] = runMain parseStub "out" [protoFileB] :=
  claim_c8 parseStub "out" protoFileA [protoFileB] (by decide)

/-! ## Claim C10: target-path derivation removes every `.proto`
occurrence. -/

/-- C10.  The generated file path is
`<outDir>/<filename with every occurrence of ".proto" removed>.pb.gw.go`
(`strings.ReplaceAll` in `resolveProtoFileName`), not the filename with
only its final extension stripped: `"a.proto.proto"` maps to
`out/a.pb.gw.go` and a mid-name occurrence is removed too, which
differs from the strip-one-extension derivation. -/
theorem claim_c10 :
    (∀ outDir fn : String,
      generatedFileName outDir fn =
        outDir ++ "/" ++ (goReplaceAll fn ".proto" "" ++ ".pb.gw.go")) ∧
    generatedFileName "out" "a.proto.proto" = "out/a.pb.gw.go" ∧
    generatedFileName "out" "x.protoy.proto" = "out/xy.pb.gw.go" ∧
    generatedFileName "out" "a.proto.proto" ≠
      "out/" ++ stripFinalProtoExtension "a.proto.proto" ++ ".pb.gw.go" := by
  refine ⟨?_, by decide, by decide, by decide⟩
  intro outDir fn
  unfold generatedFileName generatedFileTemplate resolveProtoFileName protoExtension
  rw [String.append_assoc]

/-! ## Claim C7: frame property of the traversal. -/

/-- C7.  Per-node frame property of the traversal, judged at visit
time: for every walk state `s` — in particular mid-traversal states
whose capture map is already populated by earlier rewrites —
(1) the assignment arm of the callback leaves every assignment
unchanged unless it is a single-right-hand-side call of a plain
identifier that is in the expected-call index or whose derived wrapper
name is already a key of the capture map at that moment (so multi-value
assignments, selector calls — including the annotate pattern, which
only updates scan state — and calls of unmatched identifiers are all
preserved); (2) a function declaration whose name is neither a
root-function name nor a key of the capture map at the time its own
check runs (after its children, in post-order) is kept: not deleted,
not signature-patched, its name and structure unchanged apart from the
recursive processing of its children; (3) every non-function
declaration is always kept unchanged apart from recursive processing.
The callback acts on no other node kinds, so all remaining nodes are
rebuilt unchanged by construction of the walker. -/
theorem claim_c7 (roots mt : List String) (s : WalkState) :
    (∀ lhs tok rhs,
      (∀ f args, rhs = .cons (.call (.ident f) args) .nil →
        mt.contains f = false ∧
          (mapLookup s.functions (generatedFunctionName f)).isSome = false) →
      (visitAssign mt s (.assign lhs tok rhs)).2 = .assign lhs tok rhs) ∧
    (∀ name params results body,
      roots.contains name = false →
      (mapLookup (walkStmtList mt (walkFieldList mt (walkFieldList mt s params).1
          results).1 body).1.functions name).isSome = false →
      walkDecl roots mt s (.funcDecl name params results body) =
        ((walkStmtList mt (walkFieldList mt (walkFieldList mt s params).1 results).1 body).1,
         Option.some (.funcDecl name
           (walkFieldList mt s params).2
           (walkFieldList mt (walkFieldList mt s params).1 results).2
           (walkStmtList mt (walkFieldList mt (walkFieldList mt s params).1 results).1
             body).2))) ∧
    (∀ tok specs, walkDecl roots mt s (.genDecl tok specs) =
      ((walkSpecList mt s specs).1, Option.some (.genDecl tok (walkSpecList mt s specs).2))) := by
  refine ⟨?_, ?_, ?_⟩
  · intro lhs tok rhs hm
    cases rhs with
    | nil => rfl
    | cons e t =>
      cases t with
      | cons a b => cases e <;> rfl
      | nil =>
        cases e with
        | call fn args =>
          cases fn with
          | ident f =>
            obtain ⟨hcf, hlk⟩ := hm f args rfl
            have hcond : (mt.contains f ||
                (mapLookup s.functions (generatedFunctionName f)).isSome) = false := by
              rw [hcf, hlk]
              rfl
            simp only [visitAssign]
            rw [if_neg (by rw [hcond]; exact Bool.false_ne_true)]
          | selector x sel => rfl
          | _ => rfl
        | _ => rfl
  · intro name params results body hroot hcap
    simp only [walkDecl]
    rw [if_neg (by rw [hroot]; exact Bool.false_ne_true),
      if_neg (by rw [hcap]; exact Bool.false_ne_true)]
  · intro tok specs
    rfl

/-- Witness for C7, at the populated capture state left by a real run
(its map holds `interceptor_local_request_Greeter_SayHello_0`): a
multi-value assignment, a plain selector call, and a call of an
unmatched identifier are preserved by the callback; an unrelated
function declaration is kept undeleted and unpatched; an import
declaration is kept. -/
theorem claim_c7_witness :
    (visitAssign (getMethodsMap (getRootFunctionsNames greeterProto))
        (processFileState greeterProto greeterFile).1
        (.assign (exprToList [.ident "a", .ident "b"]) .define
          (exprToList [.call (.ident "f") (exprToList [.ident "x"]),
                       .call (.ident "g") (exprToList [.ident "x"])]))).2 =
      .assign (exprToList [.ident "a", .ident "b"]) .define
        (exprToList [.call (.ident "f") (exprToList [.ident "x"]),
                     .call (.ident "g") (exprToList [.ident "x"])]) ∧
    (visitAssign (getMethodsMap (getRootFunctionsNames greeterProto))
        (processFileState greeterProto greeterFile).1
        (.assign (exprToList [.ident "c"]) .define
          (exprToList [.call (.selector (.ident "pkg") "Do")
            (exprToList [.ident "a"])]))).2 =
      .assign (exprToList [.ident "c"]) .define
        (exprToList [.call (.selector (.ident "pkg") "Do") (exprToList [.ident "a"])]) ∧
    (visitAssign (getMethodsMap (getRootFunctionsNames greeterProto))
        (processFileState greeterProto greeterFile).1
        (.assign (exprToList [.ident "c"]) .define
          (exprToList [.call (.ident "helperFn") (exprToList [.ident "a"])]))).2 =
      .assign (exprToList [.ident "c"]) .define
        (exprToList [.call (.ident "helperFn") (exprToList [.ident "a"])]) ∧
    walkDecl ((getRootFunctionsNames greeterProto).map Prod.fst)
        (getMethodsMap (getRootFunctionsNames greeterProto))
        (processFileState greeterProto greeterFile).1
        (.funcDecl "helper" (fieldsToList []) (fieldsToList [])
          (stmtToList [.ret (exprToList [])])) =
      ((processFileState greeterProto greeterFile).1,
       Option.some (.funcDecl "helper" (fieldsToList []) (fieldsToList [])
         (stmtToList [.ret (exprToList [])]))) ∧
    walkDecl ((getRootFunctionsNames greeterProto).map Prod.fst)
        (getMethodsMap (getRootFunctionsNames greeterProto))
        (processFileState greeterProto greeterFile).1 contextImportDecl =
      ((processFileState greeterProto greeterFile).1, Option.some contextImportDecl) := by
  have h := claim_c7 ((getRootFunctionsNames greeterProto).map Prod.fst)
    (getMethodsMap (getRootFunctionsNames greeterProto))
    (processFileState greeterProto greeterFile).1
  refine ⟨?_, ?_, ?_, ?_, ?_⟩
  · exact h.1 _ _ _ (by
      intro f args hh
      injection hh with h1 h2
      injection h2)
  · exact h.1 _ _ _ (by
      intro f args hh
      injection hh with h1 h2
      injection h1 with h3 h4
      injection h3)
  · exact h.1 _ _ _ (by
      intro f args hh
      injection hh with h1 h2
      injection h1 with h3 h4
      injection h3 with h5
      subst h5
      exact ⟨by decide, by decide⟩)
  · exact (h.2.1 "helper" (fieldsToList []) (fieldsToList [])
      (stmtToList [.ret (exprToList [])]) (by decide) (by decide)).trans (by decide)
  · exact (h.2.2 .importTok (specsToList [.importSpec "context"])).trans (by decide)

/-! ## Claim C9: graceful degradation without a `server` parameter. -/

theorem resolveServerType_walkFieldList (mt : List String) (l : FieldList) : ∀ s : WalkState,
    resolveServerType (walkFieldList mt s l).2 = resolveServerType l := by
  cases l with
  | nil => intro s; rfl
  | cons fd t =>
    have ih := resolveServerType_walkFieldList mt t
    intro s
    obtain ⟨names, ty⟩ := fd
    by_cases hn : names.contains serverVar = true
    · cases ty <;>
        simp [walkFieldList, walkField, walkExpr, resolveServerType, hn, ih]
    · cases ty <;>
        simp [walkFieldList, walkField, walkExpr, resolveServerType, hn, ih]

theorem noServerHint_spec (roots : List String) (ds : List Decl)
    (h : noServerHint roots ds = true) :
    ∀ name params results body, Decl.funcDecl name params results body ∈ ds →
      roots.contains name = true → resolveServerType params = "" := by
  induction ds with
  | nil =>
    intro n p r b hm hc
    exact absurd hm (List.not_mem_nil _)
  | cons d rest ih =>
    intro n p r b hm hc
    cases d with
    | funcDecl dn dp dr db =>
      simp only [noServerHint, Bool.and_eq_true] at h
      rcases List.mem_cons.mp hm with hm | hm
      · injection hm with e1 e2 e3 e4
        subst e1
        subst e2
        rcases (Bool.or_eq_true _ _).mp h.1 with hx | hx
        · rw [Bool.not_eq_true', hc] at hx
          exact absurd hx (by simp)
        · exact eq_of_beq hx
      · exact ih h.2 n p r b hm hc
    | genDecl tok specs =>
      simp only [noServerHint] at h
      rcases List.mem_cons.mp hm with hm | hm
      · exact absurd hm (by simp)
      · exact ih h n p r b hm hc

theorem walkDecls_serverType_of_roots (roots mt : List String) (ds : List Decl) :
    ∀ s : WalkState, s.serverType = "" →
    (∀ name params results body, Decl.funcDecl name params results body ∈ ds →
      roots.contains name = true → resolveServerType params = "") →
    (walkDecls roots mt s ds).1.serverType = "" := by
  induction ds with
  | nil =>
    intro s hs _
    exact hs
  | cons d rest ih =>
    intro s hs hroot
    have hrest : ∀ name params results body, Decl.funcDecl name params results body ∈ rest →
        roots.contains name = true → resolveServerType params = "" :=
      fun n p r b hm hc => hroot n p r b (List.mem_cons_of_mem _ hm) hc
    show (walkDecls roots mt (walkDecl roots mt s d).1 rest).1.serverType = ""
    apply ih _ _ hrest
    cases d with
    | genDecl tok specs =>
      show (walkSpecList mt s specs).1.serverType = ""
      rw [walkSpecList_srv]
      exact hs
    | funcDecl name params results body =>
      by_cases hr : roots.contains name = true
      · show ((if roots.contains name = true then _ else _ : WalkState × Option Decl)).1.serverType = ""
        rw [if_pos hr]
        show resolveServerType (walkFieldList mt s params).2 = ""
        rw [resolveServerType_walkFieldList]
        exact hroot name params results body (List.mem_cons_self _ _) hr
      · show ((if roots.contains name = true then _ else _ : WalkState × Option Decl)).1.serverType = ""
        rw [if_neg hr]
        split_ifs
        · show (walkStmtList mt (walkFieldList mt (walkFieldList mt s params).1 results).1
            body).1.serverType = ""
          rw [walkStmtList_srv, walkFieldList_srv, walkFieldList_srv]
          exact hs
        · show (walkStmtList mt (walkFieldList mt (walkFieldList mt s params).1 results).1
            body).1.serverType = ""
          rw [walkStmtList_srv, walkFieldList_srv, walkFieldList_srv]
          exact hs

/-- C9.  When no root-named function declaration of the file resolves a
`server` parameter with a plain identifier type, the ServerTypeHint
stays the empty string after the whole traversal, and every synthesized
wrapper's `server` parameter is emitted with the empty type name; the
transform itself is total and raises no error for this condition. -/
theorem claim_c9 (pf : ProtoFile) (f : File)
    (h : noServerHint ((getRootFunctionsNames pf).map Prod.fst) f.decls = true) :
    (processFileState pf f).1.serverType = "" ∧
      ∀ d ∈ synthesizedWrappers pf f,
        serverParamOf d = Option.some (.mk [serverVar] (.ident "")) := by
  have h1 : (processFileState pf f).1.serverType = "" := by
    unfold processFileState
    exact walkDecls_serverType_of_roots ((getRootFunctionsNames pf).map Prod.fst)
      (getMethodsMap (getRootFunctionsNames pf)) f.decls initState rfl
      (noServerHint_spec _ _ h)
  refine ⟨h1, ?_⟩
  intro d hd
  rw [show synthesizedWrappers pf f = (processFileState pf f).1.functions.map
      (fun kv => generateFunctionDeclaration kv.2 (processFileState pf f).1.serverType)
      from rfl, h1] at hd
  rcases List.mem_map.mp hd with ⟨kv, _, hkv⟩
  rw [← hkv]
  rfl

/-- Witness for C9: a file whose root function declares `server` only
with a pointer type. -/
theorem claim_c9_witness :
    (processFileState greeterProto serverlessFile).1.serverType = "" ∧
      ∀ d ∈ synthesizedWrappers greeterProto serverlessFile,
        serverParamOf d = Option.some (.mk [serverVar] (.ident "")) :=
  claim_c9 greeterProto serverlessFile (by decide)

/-! ## Claim C2: completeness counting over the visit sequence. -/

theorem stepP_keysFrom (mt : List String) (s : PState) (k : RKind)
    (h : ∀ k2 ∈ s.fns.map Prod.fst, ∃ g ∈ mt, k2 = generatedFunctionName g) :
    ∀ k2 ∈ (stepP mt s k).fns.map Prod.fst, ∃ g ∈ mt, k2 = generatedFunctionName g := by
  cases k with
  | annotateEvt o => exact h
  | other => exact h
  | identCall f =>
    simp only [stepP]
    by_cases hc : (mt.contains f || (mapLookup s.fns (generatedFunctionName f)).isSome) = true
    · rw [if_pos hc]
      intro k2 hk2
      cases hm : mapLookup s.fns (generatedFunctionName f) with
      | some v =>
        rw [show ((⟨s.lastRPC, mapUpdate s.fns (generatedFunctionName f)
            ⟨s.lastRPC, generatedFunctionName f⟩⟩ : PState)).fns =
            mapUpdate s.fns (generatedFunctionName f)
              ⟨s.lastRPC, generatedFunctionName f⟩ from rfl,
          mapUpdate_keys_of_some _ _ _ (by rw [hm]; rfl)] at hk2
        exact h k2 hk2
      | none =>
        rw [show ((⟨s.lastRPC, mapUpdate s.fns (generatedFunctionName f)
            ⟨s.lastRPC, generatedFunctionName f⟩⟩ : PState)).fns =
            mapUpdate s.fns (generatedFunctionName f)
              ⟨s.lastRPC, generatedFunctionName f⟩ from rfl,
          mapUpdate_keys_of_none _ _ _ hm] at hk2
        rcases List.mem_append.mp hk2 with hk2 | hk2
        · exact h k2 hk2
        · have hk2e : k2 = generatedFunctionName f := by simpa using hk2
          have hf : f ∈ mt := by
            rcases (Bool.or_eq_true _ _).mp hc with hx | hx
            · exact List.elem_iff.mp hx
            · rw [hm] at hx
              exact absurd hx (by simp)
          exact ⟨f, hf, hk2e⟩
    · rw [if_neg hc]
      exact h

theorem notMatched_no_fire (mt : List String) (s : PState) (f : String)
    (h : ∀ k2 ∈ s.fns.map Prod.fst, ∃ g ∈ mt, k2 = generatedFunctionName g)
    (hf : ¬ mt.contains f = true) :
    (mapLookup s.fns (generatedFunctionName f)).isSome = false := by
  cases hm : mapLookup s.fns (generatedFunctionName f) with
  | none => rfl
  | some v =>
    exfalso
    have hmemk : generatedFunctionName f ∈ s.fns.map Prod.fst := by
      rw [← mapLookup_isSome_iff, hm]
      rfl
    rcases h _ hmemk with ⟨g, hg, he⟩
    have hfg : f = g := generatedFunctionName_inj he
    subst hfg
    exact hf (List.elem_iff.mpr hg)

theorem matchedName_pos (mt : List String) (f : String) (hf : mt.contains f = true) :
    matchedName mt (.identCall f) = Option.some f := by
  simp only [matchedName]
  rw [if_pos hf]

theorem matchedName_neg (mt : List String) (f : String) (hf : ¬ mt.contains f = true) :
    matchedName mt (.identCall f) = Option.none := by
  simp only [matchedName]
  rw [if_neg hf]

theorem matchedNames_cons_none (mt : List String) (k : RKind) (rest : List RKind)
    (hk : matchedName mt k = Option.none) :
    matchedNames mt (k :: rest) = matchedNames mt rest := by
  unfold matchedNames
  rw [List.filterMap_cons, hk]

theorem matchedNames_cons_some (mt : List String) (k : RKind) (rest : List RKind) (a : String)
    (hk : matchedName mt k = Option.some a) :
    matchedNames mt (k :: rest) = a :: matchedNames mt rest := by
  unfold matchedNames
  rw [List.filterMap_cons, hk]

theorem fires_pos (mt : List String) (s : PState) (f : String) (hf : mt.contains f = true) :
    fires mt s (.identCall f) = true := by
  show (mt.contains f || (mapLookup s.fns (generatedFunctionName f)).isSome) = true
  rw [hf]
  rfl

theorem fires_neg (mt : List String) (s : PState) (f : String) (hf : ¬ mt.contains f = true)
    (hlk : (mapLookup s.fns (generatedFunctionName f)).isSome = false) :
    fires mt s (.identCall f) = false := by
  show (mt.contains f || (mapLookup s.fns (generatedFunctionName f)).isSome) = false
  cases hcb : mt.contains f with
  | true => exact absurd hcb hf
  | false =>
    rw [hlk]
    rfl

theorem stepP_skip (mt : List String) (s : PState) (f : String) (hf : ¬ mt.contains f = true)
    (hlk : (mapLookup s.fns (generatedFunctionName f)).isSome = false) :
    stepP mt s (.identCall f) = s := by
  simp only [stepP]
  rw [if_neg]
  rw [Bool.or_eq_true]
  rintro (hx | hx)
  · exact hf hx
  · rw [hlk] at hx
    exact absurd hx (by simp)

theorem stepP_fire (mt : List String) (s : PState) (f : String) (hf : mt.contains f = true) :
    stepP mt s (.identCall f) =
      ⟨s.lastRPC, mapUpdate s.fns (generatedFunctionName f)
        ⟨s.lastRPC, generatedFunctionName f⟩⟩ := by
  simp only [stepP]
  rw [if_pos]
  rw [hf]
  rfl

theorem countFired_eq (mt : List String) (tr : List RKind) : ∀ s : PState,
    (∀ k2 ∈ s.fns.map Prod.fst, ∃ g ∈ mt, k2 = generatedFunctionName g) →
    countFired mt s tr = (matchedNames mt tr).length := by
  induction tr with
  | nil =>
    intro s _
    rfl
  | cons k rest ih =>
    intro s h
    have hnext := stepP_keysFrom mt s k h
    cases k with
    | annotateEvt o =>
      show (if fires mt s (.annotateEvt o) then 1 else 0) +
        countFired mt (stepP mt s (.annotateEvt o)) rest = _
      rw [show fires mt s (.annotateEvt o) = false from rfl]
      simp only [Bool.false_eq_true, if_false, Nat.zero_add]
      rw [ih _ hnext, matchedNames_cons_none mt (.annotateEvt o) rest rfl]
    | other =>
      show (if fires mt s .other then 1 else 0) + countFired mt (stepP mt s .other) rest = _
      rw [show fires mt s .other = false from rfl]
      simp only [Bool.false_eq_true, if_false, Nat.zero_add]
      rw [ih _ hnext, matchedNames_cons_none mt .other rest rfl]
    | identCall f =>
      by_cases hf : mt.contains f = true
      · show (if fires mt s (.identCall f) then 1 else 0) +
          countFired mt (stepP mt s (.identCall f)) rest = _
        rw [fires_pos mt s f hf]
        simp only [if_true]
        rw [ih _ hnext, matchedNames_cons_some mt (.identCall f) rest f (matchedName_pos mt f hf),
          List.length_cons]
        omega
      · have hlk := notMatched_no_fire mt s f h hf
        show (if fires mt s (.identCall f) then 1 else 0) +
          countFired mt (stepP mt s (.identCall f)) rest = _
        rw [fires_neg mt s f hf hlk]
        simp only [Bool.false_eq_true, if_false, Nat.zero_add]
        rw [stepP_skip mt s f hf hlk, ih _ h,
          matchedNames_cons_none mt (.identCall f) rest (matchedName_neg mt f hf)]

theorem foldP_length (mt : List String) (tr : List RKind) : ∀ s : PState,
    (∀ k2 ∈ s.fns.map Prod.fst, ∃ g ∈ mt, k2 = generatedFunctionName g) →
    (matchedNames mt tr).Nodup →
    (∀ X ∈ matchedNames mt tr, mapLookup s.fns (generatedFunctionName X) = Option.none) →
    (tr.foldl (stepP mt) s).fns.length = s.fns.length + (matchedNames mt tr).length := by
  induction tr with
  | nil =>
    intro s _ _ _
    simp [matchedNames]
  | cons k rest ih =>
    intro s h hnd hnone
    have hnext := stepP_keysFrom mt s k h
    cases k with
    | annotateEvt o =>
      rw [matchedNames_cons_none mt (.annotateEvt o) rest rfl] at hnd hnone ⊢
      rw [List.foldl_cons]
      exact ih _ hnext hnd hnone
    | other =>
      rw [matchedNames_cons_none mt .other rest rfl] at hnd hnone ⊢
      rw [List.foldl_cons]
      exact ih _ hnext hnd hnone
    | identCall f =>
      by_cases hf : mt.contains f = true
      · rw [matchedNames_cons_some mt _ rest f (matchedName_pos mt f hf)] at hnd hnone ⊢
        have hfnone := hnone f (List.mem_cons_self _ _)
        have hstep := stepP_fire mt s f hf
        have hfnotin : f ∉ matchedNames mt rest := (List.nodup_cons.mp hnd).1
        have hnd2 : (matchedNames mt rest).Nodup := (List.nodup_cons.mp hnd).2
        have hnone2 : ∀ X ∈ matchedNames mt rest,
            mapLookup (stepP mt s (.identCall f)).fns (generatedFunctionName X) =
              Option.none := by
          intro Y hY
          rw [hstep]
          show mapLookup (mapUpdate s.fns (generatedFunctionName f)
            ⟨s.lastRPC, generatedFunctionName f⟩) (generatedFunctionName Y) = Option.none
          rw [mapUpdate_mapLookup_ne _ _ _ _
            (fun he => hfnotin (by rw [← generatedFunctionName_inj he]; exact hY))]
          exact hnone Y (List.mem_cons_of_mem _ hY)
        have ihr := ih (stepP mt s (.identCall f)) hnext hnd2 hnone2
        rw [List.foldl_cons, ihr, hstep]
        show (mapUpdate s.fns (generatedFunctionName f)
          ⟨s.lastRPC, generatedFunctionName f⟩).length + _ = _
        rw [mapUpdate_length_of_none _ _ _ hfnone, List.length_cons]
        omega
      · have hlk := notMatched_no_fire mt s f h hf
        rw [matchedNames_cons_none mt (.identCall f) rest (matchedName_neg mt f hf)] at hnd hnone ⊢
        rw [List.foldl_cons, stepP_skip mt s f hf hlk]
        exact ih s h hnd hnone

theorem mem_matchedNames (mt : List String) (tr : List RKind) (a : String)
    (ha : a ∈ matchedNames mt tr) : a ∈ mt := by
  unfold matchedNames at ha
  rcases List.mem_filterMap.mp ha with ⟨k, _, hmk⟩
  cases k with
  | annotateEvt o => exact absurd hmk (by simp [matchedName])
  | other => exact absurd hmk (by simp [matchedName])
  | identCall f =>
    by_cases hf : mt.contains f = true
    · rw [matchedName_pos mt f hf] at hmk
      rw [← Option.some.injEq f a |>.mp hmk]
      exact List.elem_iff.mp hf
    · rw [matchedName_neg mt f hf] at hmk
      exact absurd hmk (by simp)

theorem count_matchedNames (mt : List String) (a : String) (ha : a ∈ mt) (tr : List RKind) :
    (matchedNames mt tr).count a = tr.count (RKind.identCall a) := by
  induction tr with
  | nil => rfl
  | cons k rest ih =>
    have hcountr : (RKind.identCall a :: rest : List RKind).count (RKind.identCall a)
        = rest.count (RKind.identCall a) + 1 := by
      rw [List.count_cons]
      simp
    cases k with
    | annotateEvt o =>
      rw [matchedNames_cons_none mt (.annotateEvt o) rest rfl, ih, List.count_cons]
      simp
    | other =>
      rw [matchedNames_cons_none mt .other rest rfl, ih, List.count_cons]
      simp
    | identCall f =>
      by_cases hfa : f = a
      · subst hfa
        have hcf : mt.contains f = true := List.elem_iff.mpr ha
        rw [matchedNames_cons_some mt (.identCall f) rest f (matchedName_pos mt f hcf),
          List.count_cons, List.count_cons, ih]
        simp
      · have hne : ¬ (RKind.identCall a = RKind.identCall f) := by
          intro hh
          injection hh with hh2
          exact hfa hh2.symm
        by_cases hcf : mt.contains f = true
        · rw [matchedNames_cons_some mt (.identCall f) rest f (matchedName_pos mt f hcf),
            List.count_cons, List.count_cons, ih]
          simp [hfa, hne, fun hh : a = f => hfa hh.symm]
        · rw [matchedNames_cons_none mt (.identCall f) rest (matchedName_neg mt f hcf), ih,
            List.count_cons]
          simp [hne, hfa]

theorem matchedNames_perm (mt : List String) (tr : List RKind)
    (hnd : mt.Nodup)
    (honce : ∀ X ∈ mt, tr.count (RKind.identCall X) = 1) :
    (matchedNames mt tr).Perm mt := by
  rw [List.perm_iff_count]
  intro a
  by_cases ha : a ∈ mt
  · rw [count_matchedNames mt a ha tr, honce a ha, List.count_eq_one_of_mem hnd ha]
  · rw [List.count_eq_zero.mpr (fun hm => ha (mem_matchedNames mt tr a hm)),
      List.count_eq_zero.mpr ha]

/-- C2 amended.  For a FileDescriptor whose derived per-method
call-site names are pairwise distinct (M of them), if each derived name
appears as the single-right-hand-side call target of exactly one
assignment in the source tree, then one run appends exactly M
synthesized wrapper declarations and fires the call-site replacement
exactly M times. -/
theorem claim_c2 (pf : ProtoFile) (f : File) (mt : List String)
    (hmt : mt = getMethodsMap (getRootFunctionsNames pf))
    (hnd : mt.Nodup)
    (honce : ∀ X ∈ mt, (fileTrace f).count (RKind.identCall X) = 1) :
    (synthesizedWrappers pf f).length = mt.length ∧
      countFired mt initP (fileTrace f) = mt.length := by
  subst hmt
  have hperm := matchedNames_perm (getMethodsMap (getRootFunctionsNames pf)) (fileTrace f)
    hnd honce
  have hlen := hperm.length_eq
  have hinv : ∀ k2 ∈ (initP.fns.map Prod.fst),
      ∃ g ∈ getMethodsMap (getRootFunctionsNames pf), k2 = generatedFunctionName g := by
    intro k2 hk
    exact absurd hk (by simp [initP])
  have hndm : (matchedNames (getMethodsMap (getRootFunctionsNames pf)) (fileTrace f)).Nodup :=
    hperm.nodup_iff.mpr hnd
  have hnone : ∀ X ∈ matchedNames (getMethodsMap (getRootFunctionsNames pf)) (fileTrace f),
      mapLookup initP.fns (generatedFunctionName X) = Option.none := fun X _ => rfl
  have hfold := foldP_length (getMethodsMap (getRootFunctionsNames pf)) (fileTrace f)
    initP hinv hndm hnone
  have hcount := countFired_eq (getMethodsMap (getRootFunctionsNames pf)) (fileTrace f)
    initP hinv
  constructor
  · have h1 : (synthesizedWrappers pf f).length = (processFileState pf f).1.functions.length := by
      rw [show synthesizedWrappers pf f = (processFileState pf f).1.functions.map
        (fun kv => generateFunctionDeclaration kv.2 (processFileState pf f).1.serverType)
        from rfl]
      exact List.length_map _ _
    have h2 : (processFileState pf f).1.functions.length =
        (processFileState pf f).1.toP.fns.length := by
      rw [show (processFileState pf f).1.toP.fns = (processFileState pf f).1.functions.map
        (fun kv => (kv.1, PCap.mk kv.2.rpcMethodName kv.2.funcName)) from rfl]
      rw [List.length_map]
    rw [h1, h2, processFileState_toP, hfold]
    rw [show (initP.fns.length : Nat) = 0 from rfl, Nat.zero_add]
    exact hlen
  · rw [hcount]
    exact hlen

/-- C2 counterexample.  Two services whose derived call-site names
collide (`A`/`B_C` and `A_B`/`C` both derive
`local_request_A_B_C_0`): the FileDescriptor carries M = 2 methods,
each method's derived name appears as a call target exactly once, yet
only one wrapper is appended, because the capture map is keyed by the
derived name. -/
theorem claim_c2_counterexample :
    totalMethods collisionProto = 2 ∧
      (∀ X ∈ getMethodsMap (getRootFunctionsNames collisionProto),
        (fileTrace collisionFile).count (RKind.identCall X) = 1) ∧
      (synthesizedWrappers collisionProto collisionFile).length = 1 := by
  refine ⟨by decide, by decide, by decide⟩

/-- Witness for C2 at the example scenario (one service, one
method). -/
theorem claim_c2_witness :
    (synthesizedWrappers greeterProto greeterFile).length =
        (getMethodsMap (getRootFunctionsNames greeterProto)).length ∧
      countFired (getMethodsMap (getRootFunctionsNames greeterProto)) initP
        (fileTrace greeterFile) =
        (getMethodsMap (getRootFunctionsNames greeterProto)).length :=
  claim_c2 greeterProto greeterFile (getMethodsMap (getRootFunctionsNames greeterProto))
    rfl (by decide) (by decide)

/-! ## Claim C3: RPC-method-name association. -/

theorem foldP_lookup_preserved (mt : List String) (X : String) (tr : List RKind) :
    ∀ s : PState, (∀ k ∈ tr, k ≠ RKind.identCall X) →
    mapLookup ((tr.foldl (stepP mt) s)).fns (generatedFunctionName X) =
      mapLookup s.fns (generatedFunctionName X) := by
  induction tr with
  | nil =>
    intro s _
    rfl
  | cons k rest ih =>
    intro s hafter
    have hrest : ∀ k2 ∈ rest, k2 ≠ RKind.identCall X :=
      fun k2 hk2 => hafter k2 (List.mem_cons_of_mem _ hk2)
    rw [List.foldl_cons, ih _ hrest]
    cases k with
    | annotateEvt o => rfl
    | other => rfl
    | identCall g =>
      have hgX : g ≠ X := fun hh => (hafter _ (List.mem_cons_self _ _)) (by rw [hh])
      show mapLookup (stepP mt s (.identCall g)).fns _ = _
      simp only [stepP]
      split_ifs with hc
      · show mapLookup (mapUpdate s.fns (generatedFunctionName g)
          ⟨s.lastRPC, generatedFunctionName g⟩) (generatedFunctionName X) = _
        exact mapUpdate_mapLookup_ne _ _ _ _
          (fun he => hgX (generatedFunctionName_inj he).symm)
      · rfl

/-- C3 amended.  If the file's post-order visit sequence contains an
`runtime.AnnotateIncomingContext` assignment whose last string literal
is `L` immediately followed by an assignment calling the expected
call-site identifier `X`, and no later visited assignment targets `X`
again, then the synthesized wrapper named `interceptor_X` carries the
`FullMethod` literal `L` byte for byte. -/
theorem claim_c3 (pf : ProtoFile) (f : File) (L X : String) (t1 t2 : List RKind)
    (hX : X ∈ getMethodsMap (getRootFunctionsNames pf))
    (htr : fileTrace f = t1 ++ RKind.annotateEvt (Option.some L) :: RKind.identCall X :: t2)
    (hafter : ∀ k ∈ t2, k ≠ RKind.identCall X) :
    ∃ d ∈ synthesizedWrappers pf f,
      declNameOf d = Option.some (generatedFunctionName X) ∧
      fullMethodOfWrapper d = Option.some L := by
  have hcont : (getMethodsMap (getRootFunctionsNames pf)).contains X = true :=
    List.elem_iff.mpr hX
  have hfold := processFileState_toP pf f
  rw [htr, List.foldl_append, List.foldl_cons, List.foldl_cons] at hfold
  have hsa : stepP (getMethodsMap (getRootFunctionsNames pf))
      (t1.foldl (stepP (getMethodsMap (getRootFunctionsNames pf))) initP)
      (.annotateEvt (Option.some L)) =
      ⟨L, (t1.foldl (stepP (getMethodsMap (getRootFunctionsNames pf))) initP).fns⟩ := rfl
  have hlook : mapLookup (processFileState pf f).1.toP.fns (generatedFunctionName X) =
      Option.some ⟨L, generatedFunctionName X⟩ := by
    rw [hfold, hsa, stepP_fire (getMethodsMap (getRootFunctionsNames pf)) _ X hcont,
      foldP_lookup_preserved (getMethodsMap (getRootFunctionsNames pf)) X t2 _ hafter]
    exact mapUpdate_mapLookup_self _ _ _
  rw [show (processFileState pf f).1.toP.fns = (processFileState pf f).1.functions.map
      (fun kv => (kv.1, PCap.mk kv.2.rpcMethodName kv.2.funcName)) from rfl,
    mapLookup_map_snd (fun c : Captured => PCap.mk c.rpcMethodName c.funcName)] at hlook
  cases hm : mapLookup (processFileState pf f).1.functions (generatedFunctionName X) with
  | none =>
    rw [hm] at hlook
    exact absurd hlook (by simp)
  | some cap =>
    rw [hm] at hlook
    simp only [Option.map_some', Option.some.injEq, PCap.mk.injEq] at hlook
    have hmem := mapLookup_mem _ _ _ hm
    refine ⟨generateFunctionDeclaration cap (processFileState pf f).1.serverType, ?_, ?_, ?_⟩
    · rw [show synthesizedWrappers pf f = (processFileState pf f).1.functions.map
        (fun kv => generateFunctionDeclaration kv.2 (processFileState pf f).1.serverType)
        from rfl]
      exact List.mem_map.mpr ⟨(generatedFunctionName X, cap), hmem, rfl⟩
    · show Option.some cap.funcName = Option.some (generatedFunctionName X)
      rw [hlook.2]
    · show Option.some cap.rpcMethodName = Option.some L
      rw [hlook.1]

/-- C3 counterexample.  In a file where the `annotate; call X` pattern
occurs twice for the same call-site name with different literals, the
claim fails for the first pair: the last occurrence overwrites the
capture, so the synthesized wrapper carries the second literal, not the
first — even though the first annotate assignment is visited
immediately before a matched call of `X`. -/
theorem claim_c3_counterexample :
    fileTrace twoPairFile =
        [RKind.annotateEvt (Option.some "\"/Greeter/First\""),
         RKind.identCall "local_request_Greeter_SayHello_0",
         RKind.annotateEvt (Option.some "\"/Greeter/Second\""),
         RKind.identCall "local_request_Greeter_SayHello_0"] ∧
      (synthesizedWrappers greeterProto twoPairFile).map fullMethodOfWrapper =
        [Option.some "\"/Greeter/Second\""] ∧
      "\"/Greeter/Second\"" ≠ "\"/Greeter/First\"" := by
  refine ⟨by decide, by decide, by decide⟩

/-- Witness for C3 at the example scenario. -/
theorem claim_c3_witness :
    ∃ d ∈ synthesizedWrappers greeterProto greeterFile,
      declNameOf d = Option.some (generatedFunctionName "local_request_Greeter_SayHello_0") ∧
      fullMethodOfWrapper d = Option.some "\"/Greeter/SayHello\"" :=
  claim_c3 greeterProto greeterFile "\"/Greeter/SayHello\""
    "local_request_Greeter_SayHello_0" [] [] (by decide) (by decide)
    (fun k hk => absurd hk (List.not_mem_nil _))

end ProtocGenInterceptors
